import Mathlib

/-!
Verification of the bulk-messaging campaign runner
(`src/services/csv.js`, `src/services/whatsapp.js`, `src/app.js`).

JavaScript strings are modelled as Lean `String`s indexed by code point;
JavaScript numbers appearing in the relevant code paths are integers and
are modelled by `Nat`/`Int` (`Math.round` on the non-negative progress
percentage is exact integer arithmetic, see `jsRound100`).  `undefined`
string parameters are modelled by `Option String`, with JS truthiness of
a string-or-undefined value given by `jsTruthy`.
-/

/-! ## JavaScript string primitives -/

/-- `s.charAt(i)` viewed as the optional character at code-point index `i`
(`none` when out of range, where JS returns the empty string). -/
def jsCharAt (s : String) (i : Nat) : Option Char :=
  s.data.get? i

/-- `s.substring(a, b)` for `a ≤ b` (the only way it is used in the source). -/
def jsSubstring (s : String) (a b : Nat) : String :=
  ⟨(s.data.drop a).take (b - a)⟩

/-- The first `n` characters of `s`. -/
def strTake (s : String) (n : Nat) : String :=
  ⟨s.data.take n⟩

/-- `s` without its first `n` characters. -/
def strDrop (s : String) (n : Nat) : String :=
  ⟨s.data.drop n⟩

/-- `s.startsWith(p)`. -/
def jsStartsWith (s p : String) : Bool :=
  s.data.take p.data.length = p.data

/-- `str.replace(/\D/g, '')`: keep only the decimal digits. -/
def stripNonDigits (s : String) : String :=
  ⟨s.data.filter Char.isDigit⟩

/-- JS truthiness of a string-or-undefined value: `undefined` and `""` are
falsy, every other string is truthy. -/
def jsTruthy : Option String → Bool
  | none => false
  | some s => s ≠ ""

/-- `a || b` on string-or-undefined values. -/
def jsOr (a b : Option String) : Option String :=
  if jsTruthy a then a else b

/-- `s.trim()` (whitespace modelled by `Char.isWhitespace`). -/
def jsTrim (s : String) : String :=
  ⟨((s.data.dropWhile Char.isWhitespace).reverse.dropWhile Char.isWhitespace).reverse⟩

/-- Numeric value of a list of decimal digit characters. -/
def digitsToNat (ds : List Char) : Nat :=
  ds.foldl (fun a c => 10 * a + (c.toNat - '0'.toNat)) 0

/-- `parseInt(s, 10)`: skip leading whitespace, read an optional sign and a
maximal run of decimal digits; `none` models the `NaN` result. -/
def jsParseInt (s : String) : Option Int :=
  let cs := s.data.dropWhile Char.isWhitespace
  let sign : Int := if cs.head? = some '-' then -1 else 1
  let cs2 := if cs.head? = some '-' ∨ cs.head? = some '+' then cs.tail else cs
  let ds := cs2.takeWhile Char.isDigit
  if ds.isEmpty then none else some (sign * (digitsToNat ds : Int))

/-! ## `src/services/csv.js` -/

/-- One parsed CSV record, keeping only the phone-number-bearing columns the
source reads (`row.number || row.Number || row.NUMBER`); other columns are
opaque and irrelevant to every operation modelled here. -/
structure Row where
  number : Option String
  Number : Option String
  NUMBER : Option String
deriving DecidableEq, Repr

/-- The phone field extraction `row.number || row.Number || row.NUMBER`. -/
def rowPhone (r : Row) : Option String :=
  jsOr r.number (jsOr r.Number r.NUMBER)

/-- A contact object as pushed by `parseCSV`:
`{ number: cleanNumber, original: phoneNumber.toString(), rowData: row }`. -/
structure Contact where
  number : String
  original : String
  rowData : Row
deriving DecidableEq, Repr

/-- `CSVService.cleanPhoneNumber` (the revision cited by the claims;
the other revision in the file is functionally identical). -/
def cleanPhoneNumber (phoneStr : String) : Option String :=
  if phoneStr = "" then none          -- if (!phoneStr) return null
  else
    let cleaned := stripNonDigits phoneStr
    if cleaned.length = 13 ∧ jsStartsWith cleaned "55" then some cleaned
    else if cleaned.length = 11 then some ("55" ++ cleaned)
    else if cleaned.length = 10 then
      -- const ddd = cleaned.substring(0, 2); const number = cleaned.substring(2);
      some ("55" ++ jsSubstring cleaned 0 2 ++ "9" ++ jsSubstring cleaned 2 cleaned.length)
    else none

/-- `CSVService.parseCSV`, modelled on the already-parsed list of CSV rows
(file/stream handling is external I/O): for each row, extract the phone
field, and when it is truthy and `cleanPhoneNumber` succeeds, push a
contact. -/
def parseCSV (rows : List Row) : List Contact :=
  rows.filterMap fun r =>
    let phoneNumber := rowPhone r
    if jsTruthy phoneNumber then
      match cleanPhoneNumber (phoneNumber.getD "") with
      | some cleanNumber => some ⟨cleanNumber, phoneNumber.getD "", r⟩
      | none => none
    else none

/-- The fixed allow-list `validDDDs` of `isValidBrazilianNumber`. -/
def validDDDs : List Int :=
  [11, 12, 13, 14, 15, 16, 17, 18, 19, 21, 22, 24, 27, 28, 31, 32, 33, 34, 35, 37, 38,
   41, 42, 43, 44, 45, 46, 47, 48, 49, 51, 53, 54, 55, 61, 62, 63, 64, 65, 66, 67, 68,
   69, 71, 73, 74, 75, 77, 79, 81, 82, 83, 84, 85, 86, 87, 88, 89, 91, 92, 93, 94, 95,
   96, 97, 98, 99]

/-- `CSVService.isValidBrazilianNumber` (the revision cited by the claims).
`parseInt` returning `NaN` makes both range comparisons false and
`validDDDs.includes(NaN)` false, which the `none` branch mirrors. -/
def isValidBrazilianNumber (number : String) : Bool :=
  if number = "" then false           -- if (!number || ...) return false
  else if number.length ≠ 13 then false
  else if ¬ jsStartsWith number "55" then false
  else if jsCharAt number 4 ≠ some '9' then false
  else
    match jsParseInt (jsSubstring number 2 4) with
    | none => false
    | some ddd => if ddd < 11 ∨ 99 < ddd then false else validDDDs.contains ddd

/-- The normalizer exactly as the specification words it (C5): strip
non-digits, then case on the resulting length — 13 starting `"55"` kept,
11 gets `"55"` prepended, 10 becomes `"55"` + first two digits + `"9"` +
last eight digits, anything else is rejected. -/
def normalizeSpec (s : String) : Option String :=
  let d := stripNonDigits s
  if d.length = 13 ∧ jsStartsWith d "55" then some d
  else if d.length = 11 then some ("55" ++ d)
  else if d.length = 10 then some ("55" ++ strTake d 2 ++ "9" ++ strDrop d 2)
  else none

/-- Decidable equality for `Except` results, so that concrete runs can be
checked by `decide`. -/
instance {e a : Type} [DecidableEq e] [DecidableEq a] : DecidableEq (Except e a) :=
  fun x y =>
    match x, y with
    | .ok u, .ok v =>
      if h : u = v then isTrue (by rw [h]) else isFalse (by intro hc; cases hc; exact h rfl)
    | .error u, .error v =>
      if h : u = v then isTrue (by rw [h]) else isFalse (by intro hc; cases hc; exact h rfl)
    | .ok _, .error _ => isFalse (by intro hc; cases hc)
    | .error _, .ok _ => isFalse (by intro hc; cases hc)

/-! ## `src/services/whatsapp.js` -/

/-- `path.basename`: the part of the path after the last `'/'`. -/
def basename (p : String) : String :=
  ⟨(p.data.reverse.takeWhile fun c => c ≠ '/').reverse⟩

/-- `path.extname`: the suffix of the basename from its last `'.'` (empty when
there is no dot or the dot is the basename's first character). -/
def extname (p : String) : String :=
  let b := (basename p).data
  if '.' ∈ b then
    let after := b.reverse.takeWhile fun c => c ≠ '.'
    if b.length - (after.length + 1) = 0 then "" else ⟨'.' :: after.reverse⟩
  else ""

/-- `s.toLowerCase()`. -/
def jsToLower (s : String) : String :=
  ⟨s.data.map Char.toLower⟩

/-- The MIME-type selection of `sendMessage`: switch on the lower-cased file
extension, defaulting to `image/jpeg`. -/
def mimetypeFor (imagePath : String) : String :=
  let extension := jsToLower (extname imagePath)
  if extension = ".png" then "image/png"
  else if extension = ".gif" then "image/gif"
  else if extension = ".webp" then "image/webp"
  else "image/jpeg"

/-- One call to `sock.sendMessage`, as observable payload kinds: image with
caption, voice-note audio (`ptt: true`, no caption), or plain text. -/
inductive Dispatch
  | image (jid : String) (caption : Option String) (mimetype : String)
  | audioNote (jid : String) (mimetype : String) (ptt : Bool)
  | text (jid : String) (body : String)
deriving DecidableEq, Repr

/-- `WhatsAppService.sendMessage`.  The transport is abstracted by
`addrOnWhatsApp` (the result of the `onWhatsApp` existence check) and the
filesystem by `fsExists` (`fs.existsSync`); the dispatch calls actually issued
are returned in order.  A failing existence check throws, wrapped by the
`catch` into `"Falha no envio: ..."`.  (Transport errors thrown by the
dispatch calls themselves are modelled at the engine level by the per-attempt
outcome oracle.) -/
def sendMessage (addrOnWhatsApp : Bool) (fsExists : String → Bool) (contact : Contact)
    (imagePath audioPath message : Option String) : Except String (List Dispatch) :=
  let jid := contact.number ++ "@s.whatsapp.net"
  if addrOnWhatsApp = false then
    .error "Falha no envio: Número não existe no WhatsApp"
  else
    let sends1 : List Dispatch :=
      if jsTruthy imagePath = true ∧ fsExists (imagePath.getD "") = true then
        [.image jid message (mimetypeFor (imagePath.getD ""))]
      else []
    let sends2 : List Dispatch :=
      if jsTruthy audioPath = true ∧ fsExists (audioPath.getD "") = true then
        [.audioNote jid "audio/mp4" true]
      else []
    let sends3 : List Dispatch :=
      if jsTruthy imagePath = false ∧ jsTruthy audioPath = false ∧
          jsTruthy message = true ∧ jsTrim (message.getD "") ≠ "" then
        [.text jid (message.getD "")]
      else []
    .ok (sends1 ++ sends2 ++ sends3)

/-- Outcome of one delivery attempt as seen by the campaign loop:
success, or the thrown error's message. -/
inductive SendOutcome
  | ok
  | fail (msg : String)
deriving DecidableEq, Repr

/-- The error field of the progress event for an attempt. -/
def errOf : SendOutcome → Option String
  | .ok => none
  | .fail m => some m

/-- The outcome the loop's try/catch observes from a `sendMessage` result. -/
def outcomeOfSend : Except String (List Dispatch) → SendOutcome
  | .ok _ => .ok
  | .error m => .fail m

/-- The Socket.IO events emitted during a campaign run. -/
inductive Event
  | started (total : Nat)
  | progress (sent failed total : Nat) (current : String) (error : Option String) (pct : Nat)
  | stopped
  | finished (sent failed total : Nat)
deriving DecidableEq, Repr

/-- When (if ever) `stopBulkSend` is called during the run: never, while
attempt `k`'s network call is in flight, or while the pacing delay after
attempt `k` is in progress. -/
inductive StopSpec
  | never
  | duringSend (k : Nat)
  | duringDelay (k : Nat)
deriving DecidableEq, Repr

/-- `Math.round((sent + failed) / total * 100)` for `p = sent + failed` and
`t = total`: on these non-negative integers `Math.round(x)` is
`⌊x + 1/2⌋ = (200 p + t) / (2 t)` in exact arithmetic. -/
def jsRound100 (p t : Nat) : Nat :=
  (200 * p + t) / (2 * t)

/-- The mutable state the send loop maintains: the campaign counters, the
`isSending` flag, the total delay time slept so far (ms), and the events
emitted so far, in order. -/
structure LoopSt where
  sent : Nat
  failed : Nat
  isSending : Bool
  waited : Nat
  events : List Event
deriving DecidableEq, Repr

/-- The `for` loop of `startBulkSend` over the shuffled contact list.
`o i` is the outcome of attempt `i` (success or the caught error message),
`d i` the random delay (ms) drawn after attempt `i`, and `stop` the moment a
`stopBulkSend` call arrives, if any.  Stopping mid-send emits the stopped
event before the in-flight attempt's progress event and skips the upcoming
delay guard; stopping mid-delay emits the stopped event during the delay,
which — being a plain `setTimeout` sleep — still elapses in full before the
loop re-checks `isSending`. -/
def campaignLoop (o : Nat → SendOutcome) (d : Nat → Nat) (stop : StopSpec) (total : Nat) :
    List Contact → Nat → LoopSt → LoopSt
  | [], _, s => s
  | c :: rest, i, s =>
    if s.isSending = false then s
    else
      let s1 : LoopSt :=
        if stop = .duringSend i then
          { s with isSending := false, events := s.events ++ [.stopped] }
        else s
      let sent' := match o i with | .ok => s1.sent + 1 | .fail _ => s1.sent
      let failed' := match o i with | .ok => s1.failed | .fail _ => s1.failed + 1
      let s2 : LoopSt :=
        { s1 with
          sent := sent', failed := failed',
          events := s1.events ++
            [.progress sent' failed' total c.number (errOf (o i))
              (jsRound100 (sent' + failed') total)] }
      let s3 : LoopSt :=
        if i < total - 1 ∧ s2.isSending = true then
          if stop = .duringDelay i then
            { s2 with
              waited := s2.waited + d i, isSending := false,
              events := s2.events ++ [.stopped] }
          else { s2 with waited := s2.waited + d i }
        else s2
      campaignLoop o d stop total rest (i + 1) s3

/-- The campaign object created by `startBulkSend`
(`{contacts, imagePath, message, sent, failed, total, startTime}`;
the wall-clock `startTime` is not modelled). -/
structure Campaign where
  contacts : List Contact
  imagePath : Option String
  message : Option String
  sent : Nat
  failed : Nat
  total : Nat
deriving DecidableEq, Repr

/-- The service state relevant to the campaign engine. -/
structure EngineState where
  isConnected : Bool
  isSending : Bool
  currentCampaign : Option Campaign
deriving DecidableEq, Repr

/-- Result of a completed `startBulkSend` call: the service state after the
run, every event emitted (in order), and the total time (ms) spent in pacing
delays.  (The wall-clock `duration` reported by the finished event depends on
real time and is not modelled; the finished event carries the final
counters.) -/
structure RunOutcome where
  state : EngineState
  events : List Event
  waited : Nat
deriving DecidableEq, Repr

/-- The JS array swap `[a[i], a[j]] = [a[j], a[i]]` (indices always in range
in the source, since `j = Math.floor(Math.random() * (i + 1)) ≤ i`). -/
def listSwap (l : List α) (i j : Nat) : List α :=
  match l.get? i, l.get? j with
  | some x, some y => (l.set i y).set j x
  | _, _ => l

/-- The Fisher-Yates loop of `shuffleArray`: `for (i = len-1; i > 0; i--)`
swap positions `i` and `rand i`. -/
def fyAux (rand : Nat → Nat) : Nat → List α → List α
  | 0, a => a
  | i + 1, a => fyAux rand i (listSwap a (i + 1) (rand (i + 1)))

/-- `WhatsAppService.shuffleArray` on the copy `[...array]`; `rand i` models
`Math.floor(Math.random() * (i + 1))`, hence `rand i ≤ i` in every real
execution. -/
def shuffleArray (l : List α) (rand : Nat → Nat) : List α :=
  fyAux rand (l.length - 1) l

/-- `startBulkSend`: reject when disconnected or already sending, otherwise
create the campaign, emit the started event, shuffle, run the loop, and emit
the terminal finished event.  (There is no emptiness check on `contacts`.) -/
def startBulkSend (st : EngineState) (contacts : List Contact)
    (imagePath audioPath message : Option String) (o : Nat → SendOutcome)
    (d : Nat → Nat) (rand : Nat → Nat) (stop : StopSpec) : Except String RunOutcome :=
  if st.isConnected = false then .error "WhatsApp não está conectado"
  else if st.isSending = true then .error "Uma campanha já está em andamento"
  else
    let total := contacts.length
    let shuffled := shuffleArray contacts rand
    let s0 : LoopSt :=
      { sent := 0, failed := 0, isSending := true, waited := 0,
        events := [.started total] }
    let fin := campaignLoop o d stop total shuffled 0 s0
    .ok
      { state :=
          { isConnected := st.isConnected, isSending := false,
            currentCampaign := some
              { contacts := contacts, imagePath := imagePath, message := message,
                sent := fin.sent, failed := fin.failed, total := total } },
        events := fin.events ++ [.finished fin.sent fin.failed total],
        waited := fin.waited }

/-- `WhatsAppService.stopBulkSend`: clear `isSending` and emit the stopped
event immediately; never an error. -/
def stopBulkSend (st : EngineState) : EngineState × List Event :=
  ({ st with isSending := false }, [Event.stopped])

/-- `applySwaps l k [j_k, ..., j_1]` performs the Fisher-Yates swaps for an
explicit list of random choices (top index first); it is `fyAux` with the
choices listed instead of drawn from an oracle. -/
def applySwaps : List α → Nat → List Nat → List α
  | l, i + 1, j :: rest => applySwaps (listSwap l (i + 1) j) i rest
  | l, _, _ => l

/-- The choices `[rand k, rand (k-1), ..., rand 1]` actually drawn by the
shuffle loop. -/
def descSeq (rand : Nat → Nat) : Nat → List Nat
  | 0 => []
  | k + 1 => rand (k + 1) :: descSeq rand k

/-- All valid Fisher-Yates choice lists `[j_k, ..., j_1]` with `j_i ≤ i`:
there are `(k+1)!` of them, matching the uniform and independent draws of
`Math.random`. -/
def allChoiceSeqs : Nat → List (List Nat)
  | 0 => [[]]
  | k + 1 => (List.range (k + 2)).flatMap fun j => (allChoiceSeqs k).map fun c => j :: c

/-- A choice list `[j_k, ..., j_1]` is valid when `j_i ≤ i` throughout. -/
def validSeq : Nat → List Nat → Bool
  | 0, [] => true
  | k + 1, j :: c => j ≤ k + 1 && validSeq k c
  | _, _ => false

/-- Number of successful attempts among attempts `i, i+1, ..., i+n-1`. -/
def okCount (o : Nat → SendOutcome) : Nat → Nat → Nat
  | _, 0 => 0
  | i, n + 1 => (if o i = .ok then 1 else 0) + okCount o (i + 1) n

/-- Total pacing delay drawn for attempts `i, i+1, ..., i+n-1`. -/
def sumDelays (d : Nat → Nat) : Nat → Nat → Nat
  | _, 0 => 0
  | i, n + 1 => d i + sumDelays d (i + 1) n

/-- The progress events the loop emits for the given remaining contacts,
starting at attempt index `i` with counters `sent`/`failed`. -/
def runEvents (o : Nat → SendOutcome) (total : Nat) :
    List Contact → Nat → Nat → Nat → List Event
  | [], _, _, _ => []
  | c :: rest, i, sent, failed =>
    let sent' := match o i with | .ok => sent + 1 | .fail _ => sent
    let failed' := match o i with | .ok => failed | .fail _ => failed + 1
    .progress sent' failed' total c.number (errOf (o i)) (jsRound100 (sent' + failed') total)
      :: runEvents o total rest (i + 1) sent' failed'

/-- The (sent, failed) counter pairs carried by the progress events of a
trace, in emission order. -/
def progPairs (evs : List Event) : List (Nat × Nat) :=
  evs.filterMap fun e =>
    match e with
    | .progress sent failed _ _ _ _ => some (sent, failed)
    | _ => none

/-- The events the loop emits when a stop request arrives while attempt `K`
is in flight: progress events accumulate normally until attempt `K`, whose
progress event is preceded by the stopped event (emitted by `stopBulkSend`
while the send is awaited); nothing follows. -/
def runEventsStopSend (o : Nat → SendOutcome) (total K : Nat) :
    List Contact → Nat → Nat → Nat → List Event
  | [], _, _, _ => []
  | c :: rest, i, sent, failed =>
    let sent' := match o i with | .ok => sent + 1 | .fail _ => sent
    let failed' := match o i with | .ok => failed | .fail _ => failed + 1
    let ev : Event :=
      .progress sent' failed' total c.number (errOf (o i)) (jsRound100 (sent' + failed') total)
    if i = K then [.stopped, ev]
    else ev :: runEventsStopSend o total K rest (i + 1) sent' failed'

/-- The events the loop emits when a stop request arrives during the pacing
delay after attempt `K`: attempt `K`'s progress event is followed by the
stopped event; nothing follows (but the delay itself still elapses in
full). -/
def runEventsStopDelay (o : Nat → SendOutcome) (total K : Nat) :
    List Contact → Nat → Nat → Nat → List Event
  | [], _, _, _ => []
  | c :: rest, i, sent, failed =>
    let sent' := match o i with | .ok => sent + 1 | .fail _ => sent
    let failed' := match o i with | .ok => failed | .fail _ => failed + 1
    let ev : Event :=
      .progress sent' failed' total c.number (errOf (o i)) (jsRound100 (sent' + failed') total)
    if i = K then [ev, .stopped]
    else ev :: runEventsStopDelay o total K rest (i + 1) sent' failed'

/-- The counter pairs of a trace are non-decreasing in both components. -/
def monoPairs (l : List (Nat × Nat)) : Prop :=
  List.Chain' (fun a b => a.1 ≤ b.1 ∧ a.2 ≤ b.2) l

/-! ## Theorems -/

theorem validDDDs_bounds : ∀ d ∈ validDDDs, 11 ≤ d ∧ d ≤ 99 := by decide

/-- C4: `isValidBrazilianNumber n` is true iff `n` has exactly 13 characters,
starts with `"55"`, has `'9'` at index 4, and the integer parsed from the
characters at indices 2..3 belongs to the fixed 67-entry area-code
allow-list `validDDDs`. -/
theorem isValidBrazilianNumber_iff (n : String) :
    isValidBrazilianNumber n = true ↔
      n.length = 13 ∧ jsStartsWith n "55" = true ∧ jsCharAt n 4 = some '9' ∧
        ∃ d, jsParseInt (jsSubstring n 2 4) = some d ∧ d ∈ validDDDs := by
  unfold isValidBrazilianNumber
  by_cases h0 : n = ""
  · subst h0; simp
  rw [if_neg h0]
  by_cases h1 : n.length = 13
  · rw [if_neg (fun hc => hc h1)]
    by_cases h2 : jsStartsWith n "55" = true
    · rw [if_neg (fun hc => hc h2)]
      by_cases h3 : jsCharAt n 4 = some '9'
      · rw [if_neg (fun hc => hc h3)]
        cases hp : jsParseInt (jsSubstring n 2 4) with
        | none => simp [h1, h2, h3]
        | some d =>
          have hred : (match (some d : Option Int) with
              | none => false
              | some ddd => if ddd < 11 ∨ 99 < ddd then false else validDDDs.contains ddd) =
              (if d < 11 ∨ 99 < d then false else validDDDs.contains d) := rfl
          rw [hred]
          by_cases hr : d < 11 ∨ 99 < d
          · rw [if_pos hr]
            refine ⟨fun hcontra => absurd hcontra (by decide), ?_⟩
            rintro ⟨-, -, -, e, he, hmem⟩
            rw [Option.some_inj] at he
            subst he
            obtain ⟨hb1, hb2⟩ := validDDDs_bounds d hmem
            omega
          · rw [if_neg hr]
            simp only [h1, h2, h3, true_and, Option.some_inj]
            constructor
            · intro h
              exact ⟨d, rfl, by simpa using h⟩
            · rintro ⟨e, he, hmem⟩
              subst he
              simpa using hmem
      · rw [if_pos h3]
        refine ⟨fun hcontra => absurd hcontra (by decide), ?_⟩
        rintro ⟨-, -, hc', -⟩
        exact absurd hc' h3
    · rw [if_pos h2]
      refine ⟨fun hcontra => absurd hcontra (by decide), ?_⟩
      rintro ⟨-, hsw', -⟩
      exact absurd hsw' h2
  · rw [if_pos h1]
    refine ⟨fun hcontra => absurd hcontra (by decide), ?_⟩
    rintro ⟨hlen', -⟩
    exact absurd hlen' h1

theorem isValidBrazilianNumber_iff_witness :
    isValidBrazilianNumber "5514991234567" = true ∧
      isValidBrazilianNumber "5510991234567" = false :=
  ⟨(isValidBrazilianNumber_iff "5514991234567").mpr (by decide),
   by
    have h := isValidBrazilianNumber_iff "5510991234567"
    revert h
    decide⟩

theorem jsSubstring_zero_two (c : String) : jsSubstring c 0 2 = strTake c 2 := rfl

theorem jsSubstring_two_len (c : String) :
    jsSubstring c 2 c.length = strDrop c 2 := by
  unfold jsSubstring strDrop
  have hlen : c.length - 2 = (c.data.drop 2).length := by
    rw [List.length_drop]; rfl
  rw [hlen, List.take_length]

/-- C5: `cleanPhoneNumber` agrees with the specification's normalizer on every
input string: strip non-digits, then keep a 13-digit string starting `"55"`,
prepend `"55"` to an 11-digit string, turn a 10-digit string `ab cccccccc`
into `"55" ++ ab ++ "9" ++ cccccccc`, and reject every other length as well
as 13-digit strings not starting `"55"`. -/
theorem cleanPhoneNumber_eq_normalizeSpec (s : String) :
    cleanPhoneNumber s = normalizeSpec s := by
  unfold cleanPhoneNumber normalizeSpec
  by_cases h0 : s = ""
  · subst h0; decide
  rw [if_neg h0]
  simp only []
  split_ifs with hA hB hC
  · rfl
  · rfl
  · rw [jsSubstring_zero_two, jsSubstring_two_len]
  · rfl

theorem stripNonDigits_digits (s : String) :
    ∀ ch ∈ (stripNonDigits s).data, ch.isDigit = true := by
  intro ch hch
  exact List.of_mem_filter hch

theorem string_append_data (a b : String) : (a ++ b).data = a.data ++ b.data := rfl

/-- Every string produced by `cleanPhoneNumber` is made of exactly 13 decimal
digits and starts with `"55"`. -/
theorem cleanPhoneNumber_shape (s c : String) (h : cleanPhoneNumber s = some c) :
    c.length = 13 ∧ (∀ ch ∈ c.data, ch.isDigit = true) ∧ jsStartsWith c "55" = true := by
  unfold cleanPhoneNumber at h
  by_cases h0 : s = ""
  · rw [if_pos h0] at h; cases h
  rw [if_neg h0] at h
  simp only [] at h
  split_ifs at h with hA hB hC
  · cases h
    exact ⟨hA.1, stripNonDigits_digits s, hA.2⟩
  · cases h
    have hlen11 : (stripNonDigits s).data.length = 11 := hB
    refine ⟨?_, ?_, ?_⟩
    · show ("55" ++ stripNonDigits s).data.length = 13
      rw [string_append_data, List.length_append, hlen11]
      rfl
    · intro ch hch
      rw [string_append_data] at hch
      rcases List.mem_append.mp hch with hl | hr
      · have hl2 : ch ∈ ['5', '5'] := hl
        obtain rfl : ch = '5' := by simpa using hl2
        decide
      · exact stripNonDigits_digits s ch hr
    · rfl
  · cases h
    have hlen10 : (stripNonDigits s).data.length = 10 := hC
    refine ⟨?_, ?_, ?_⟩
    · show ("55" ++ jsSubstring (stripNonDigits s) 0 2 ++ "9" ++
          jsSubstring (stripNonDigits s) 2 (stripNonDigits s).length).data.length = 13
      simp only [string_append_data, List.length_append]
      unfold jsSubstring
      simp only [List.length_take, List.length_drop]
      have h55 : ("55" : String).data.length = 2 := rfl
      have h9 : ("9" : String).data.length = 1 := rfl
      rw [h55, h9, show (stripNonDigits s).length = (stripNonDigits s).data.length from rfl,
        hlen10]
      rfl
    · intro ch hch
      simp only [string_append_data, List.mem_append] at hch
      rcases hch with ((h5 | hsub1) | h9) | hsub2
      · have h5x : ch ∈ ['5', '5'] := h5
        obtain rfl : ch = '5' := by simpa using h5x
        decide
      · exact stripNonDigits_digits s ch (List.mem_of_mem_take hsub1)
      · have h9x : ch ∈ ['9'] := h9
        obtain rfl : ch = '9' := by simpa using h9x
        decide
      · exact stripNonDigits_digits s ch
          (List.mem_of_mem_drop (List.mem_of_mem_take hsub2))
    · rfl

/-- C9 (amended): every contact produced by `parseCSV` carries a canonical
number of exactly 13 decimal digits starting with `"55"`.  (The mobile-marker
digit `'9'` at index 4 is not guaranteed at ingestion: the 13-digit branch of
`cleanPhoneNumber` never checks it — see the counterexample.) -/
theorem parseCSV_number_shape (rows : List Row) (ct : Contact) (h : ct ∈ parseCSV rows) :
    ct.number.length = 13 ∧ (∀ ch ∈ ct.number.data, ch.isDigit = true) ∧
      jsStartsWith ct.number "55" = true := by
  unfold parseCSV at h
  obtain ⟨r, hr, hf⟩ := List.mem_filterMap.mp h
  simp only [] at hf
  by_cases ht : jsTruthy (rowPhone r) = true
  · rw [if_pos ht] at hf
    cases hc : cleanPhoneNumber ((rowPhone r).getD "") with
    | none => rw [hc] at hf; cases hf
    | some cn =>
      rw [hc] at hf
      cases hf
      exact cleanPhoneNumber_shape _ _ hc
  · rw [if_neg ht] at hf
    cases hf

theorem parseCSV_number_shape_witness :
    ("5511999999999" : String).length = 13 ∧
      (∀ ch ∈ ("5511999999999" : String).data, ch.isDigit = true) ∧
      jsStartsWith "5511999999999" "55" = true :=
  parseCSV_number_shape [⟨some "+5511999999999", none, none⟩]
    ⟨"5511999999999", "+5511999999999", ⟨some "+5511999999999", none, none⟩⟩ (by decide)

/-- C9 counterexample: a 13-digit input starting `"55"` is accepted verbatim by
ingestion even though its character at index 4 is `'8'`, not the mobile
marker `'9'`; the claimed index-4 invariant fails on the `parseCSV` output. -/
theorem parseCSV_marker_counterexample :
    (parseCSV [⟨some "5511812345678", none, none⟩]).map Contact.number = ["5511812345678"] ∧
      jsCharAt "5511812345678" 4 ≠ some '9' := by decide

/-- C2 (amended): a `startBulkSend` call made while the transport is
disconnected, or while a campaign is already running, is rejected
synchronously with an error — no campaign state is created, no events are
emitted (an error result carries no state and no events).  An empty contact
list, however, is NOT rejected: the source has no emptiness check, so the
call succeeds, emitting the started and finished events of a trivial run with
`total = 0`. -/
theorem startBulkSend_preconditions (st : EngineState)
    (contacts : List Contact) (imagePath audioPath message : Option String)
    (o : Nat → SendOutcome) (d rand : Nat → Nat) (stop : StopSpec) :
    (st.isConnected = false →
      startBulkSend st contacts imagePath audioPath message o d rand stop =
        .error "WhatsApp não está conectado") ∧
    (st.isConnected = true → st.isSending = true →
      startBulkSend st contacts imagePath audioPath message o d rand stop =
        .error "Uma campanha já está em andamento") ∧
    (st.isConnected = true → st.isSending = false →
      startBulkSend st [] imagePath audioPath message o d rand stop =
        .ok ⟨⟨true, false, some ⟨[], imagePath, message, 0, 0, 0⟩⟩,
             [.started 0, .finished 0 0 0], 0⟩) := by
  refine ⟨?_, ?_, ?_⟩
  · intro h
    unfold startBulkSend
    rw [if_pos h]
  · intro hc hs
    unfold startBulkSend
    rw [if_neg (by simp [hc]), if_pos hs]
  · intro hc hs
    unfold startBulkSend
    rw [if_neg (by simp [hc]), if_neg (by simp [hs]), hc]
    rfl

theorem startBulkSend_preconditions_witness :
    (startBulkSend ⟨false, false, none⟩ [] none none none (fun _ => .ok) (fun _ => 0)
        (fun _ => 0) .never = .error "WhatsApp não está conectado") ∧
    (startBulkSend ⟨true, true, none⟩ [] none none none (fun _ => .ok) (fun _ => 0)
        (fun _ => 0) .never = .error "Uma campanha já está em andamento") ∧
    (startBulkSend ⟨true, false, none⟩ [] none none none (fun _ => .ok) (fun _ => 0)
        (fun _ => 0) .never =
      .ok ⟨⟨true, false, some ⟨[], none, none, 0, 0, 0⟩⟩,
           [.started 0, .finished 0 0 0], 0⟩) :=
  ⟨(startBulkSend_preconditions ⟨false, false, none⟩ [] none none none (fun _ => .ok)
      (fun _ => 0) (fun _ => 0) .never).1 rfl,
   (startBulkSend_preconditions ⟨true, true, none⟩ [] none none none (fun _ => .ok)
      (fun _ => 0) (fun _ => 0) .never).2.1 rfl rfl,
   (startBulkSend_preconditions ⟨true, false, none⟩ [] none none none (fun _ => .ok)
      (fun _ => 0) (fun _ => 0) .never).2.2 rfl rfl⟩

/-- C2 counterexample: a `startBulkSend` call with an empty contact list on a
connected, idle service is NOT rejected: it returns success and emits the
campaign-started and campaign-finished lifecycle events of a trivial run,
contradicting the claim that the campaign never begins. -/
theorem startBulkSend_empty_counterexample :
    (startBulkSend ⟨true, false, none⟩ [] none none none (fun _ => .ok) (fun _ => 0)
        (fun _ => 0) .never).toOption.map RunOutcome.events =
      some [.started 0, .finished 0 0 0] := by decide

theorem campaignLoop_not_sending (o : Nat → SendOutcome) (d : Nat → Nat) (stop : StopSpec)
    (total : Nat) (cs : List Contact) (i : Nat) (s : LoopSt) (h : s.isSending = false) :
    campaignLoop o d stop total cs i s = s := by
  cases cs with
  | nil => rfl
  | cons c rest =>
    unfold campaignLoop
    rw [if_pos h]

theorem okCount_le (o : Nat → SendOutcome) : ∀ (n i : Nat), okCount o i n ≤ n := by
  intro n
  induction n with
  | zero => intro i; simp [okCount]
  | succ m ih =>
    intro i
    unfold okCount
    have := ih (i + 1)
    split <;> omega

theorem campaignLoop_nil (o : Nat → SendOutcome) (d : Nat → Nat) (stop : StopSpec)
    (total i : Nat) (s : LoopSt) : campaignLoop o d stop total [] i s = s := rfl

theorem loopSt_ext (a b : LoopSt) (h1 : a.sent = b.sent) (h2 : a.failed = b.failed)
    (h3 : a.isSending = b.isSending) (h4 : a.waited = b.waited)
    (h5 : a.events = b.events) : a = b := by
  cases a
  cases b
  simp_all

/-- Characterization of the loop when no stop request ever arrives: every
remaining contact is attempted, counters accumulate the attempt outcomes, all
pacing delays except the one after the last contact elapse, and one progress
event per attempt is appended. -/
theorem campaignLoop_never (o : Nat → SendOutcome) (d : Nat → Nat) (total : Nat) :
    ∀ (cs : List Contact) (i : Nat) (s : LoopSt), s.isSending = true →
      i + cs.length = total →
      campaignLoop o d .never total cs i s =
        { sent := s.sent + okCount o i cs.length,
          failed := s.failed + (cs.length - okCount o i cs.length),
          isSending := true,
          waited := s.waited + sumDelays d i (cs.length - 1),
          events := s.events ++ runEvents o total cs i s.sent s.failed } := by
  intro cs
  induction cs with
  | nil =>
    intro i s hs htot
    simp only [campaignLoop, okCount, sumDelays, runEvents, List.length_nil, Nat.add_zero,
      Nat.sub_zero, List.append_nil]
    rw [← hs]
  | cons c rest ih =>
    intro i s hs htot
    unfold campaignLoop
    rw [if_neg (by simp [hs])]
    simp only []
    rw [if_neg (fun h => StopSpec.noConfusion h)]
    by_cases hrl : rest.length = 0
    · obtain rfl : rest = [] := List.length_eq_zero.mp hrl
      have hi : ¬ (i < total - 1 ∧ s.isSending = true) := by
        simp only [List.length_cons, List.length_nil] at htot
        intro hcon
        omega
      rw [if_neg hi, campaignLoop_nil]
      apply loopSt_ext <;> cases ho : o i <;>
        simp [okCount, sumDelays, runEvents, errOf, ho, hs]
    · have hi : (i < total - 1 ∧ s.isSending = true) := by
        refine ⟨?_, hs⟩
        simp only [List.length_cons] at htot
        omega
      rw [if_pos hi, if_neg (fun h => StopSpec.noConfusion h)]
      rw [ih (i + 1)]
      rotate_left
      · exact hs
      · simp only [List.length_cons] at htot
        omega
      obtain ⟨m, hm⟩ := Nat.exists_eq_succ_of_ne_zero hrl
      apply loopSt_ext
      · dsimp only
        cases ho : o i
        · simp only [okCount, ho, List.length_cons, if_pos]
          have hgen : ∀ K : Nat, s.sent + 1 + K = s.sent + (1 + K) := by omega
          simpa using hgen (okCount o (i + 1) rest.length)
        · simp only [okCount, ho, List.length_cons]
          have hgen : ∀ K : Nat, s.sent + K = s.sent + (0 + K) := by omega
          simpa using hgen (okCount o (i + 1) rest.length)
      · dsimp only
        have hle := okCount_le o rest.length (i + 1)
        cases ho : o i
        · simp only [okCount, ho, List.length_cons]
          have hgen : ∀ K : Nat, s.failed + (rest.length - K) =
              s.failed + (rest.length + 1 - (1 + K)) := by omega
          simpa using hgen (okCount o (i + 1) rest.length)
        · simp only [okCount, ho, List.length_cons]
          have hgen : ∀ K : Nat, K ≤ rest.length → s.failed + 1 + (rest.length - K) =
              s.failed + (rest.length + 1 - (0 + K)) := by omega
          simpa using hgen (okCount o (i + 1) rest.length) hle
      · rfl
      · dsimp only
        rw [List.length_cons, hm]
        simp only [Nat.add_sub_cancel, sumDelays, Nat.succ_sub_one]
        omega
      · dsimp only
        cases ho : o i <;> simp [runEvents, errOf, ho, List.append_assoc]

/-- Characterization of the loop when the stop request arrives while attempt
`K`'s send is in flight: attempts `i..K` all run (the in-flight one
completes and is counted), no later contact is attempted, the pacing delay
after attempt `K` is never entered, and the stopped event precedes attempt
`K`'s progress event. -/
theorem campaignLoop_duringSend (o : Nat → SendOutcome) (d : Nat → Nat) (total K : Nat) :
    ∀ (cs : List Contact) (i : Nat) (s : LoopSt), s.isSending = true →
      i + cs.length = total → i ≤ K → K < total →
      campaignLoop o d (.duringSend K) total cs i s =
        { sent := s.sent + okCount o i (K + 1 - i),
          failed := s.failed + ((K + 1 - i) - okCount o i (K + 1 - i)),
          isSending := false,
          waited := s.waited + sumDelays d i (K - i),
          events := s.events ++ runEventsStopSend o total K cs i s.sent s.failed } := by
  intro cs
  induction cs with
  | nil =>
    intro i s hs htot hiK hK
    simp only [List.length_nil, Nat.add_zero] at htot
    omega
  | cons c rest ih =>
    intro i s hs htot hiK hK
    unfold campaignLoop
    rw [if_neg (by simp [hs])]
    simp only []
    rcases Nat.eq_or_lt_of_le hiK with rfl | hlt
    · rw [if_pos rfl]
      rw [if_neg (by rintro ⟨-, hcon⟩; cases hcon)]
      rw [campaignLoop_not_sending _ _ _ _ _ _ _ rfl]
      apply loopSt_ext
      · dsimp only
        cases ho : o i <;> simp [okCount, ho, Nat.add_sub_cancel_left]
      · dsimp only
        cases ho : o i <;> simp [okCount, ho, Nat.add_sub_cancel_left]
      · rfl
      · dsimp only
        simp [Nat.sub_self, sumDelays]
      · dsimp only
        cases ho : o i <;>
          simp [runEventsStopSend, errOf, ho, List.append_assoc]
    · rw [if_neg (fun h => absurd (StopSpec.duringSend.inj h) (by omega))]
      have hi : (i < total - 1 ∧ s.isSending = true) := by
        refine ⟨?_, hs⟩
        simp only [List.length_cons] at htot
        omega
      rw [if_pos hi, if_neg (fun h => StopSpec.noConfusion h)]
      rw [ih (i + 1)]
      rotate_left
      · exact hs
      · simp only [List.length_cons] at htot
        omega
      · omega
      · omega
      obtain ⟨m, hm⟩ := Nat.exists_eq_succ_of_ne_zero (Nat.sub_ne_zero_of_lt hlt)
      have e1 : K + 1 - i = m + 2 := by omega
      have e2 : K + 1 - (i + 1) = m + 1 := by omega
      have e3 : K - i = m + 1 := by omega
      have e4 : K - (i + 1) = m := by omega
      apply loopSt_ext
      · dsimp only
        rw [e1, e2]
        cases ho : o i
        · have hcnt : okCount o i (m + 2) = 1 + okCount o (i + 1) (m + 1) := by
            simp [okCount, ho]
          simp only [ho]
          exact (show ∀ A B S : Nat, B = 1 + A → S + 1 + A = S + B by omega)
            (okCount o (i + 1) (m + 1)) (okCount o i (m + 2)) s.sent hcnt
        · have hcnt : okCount o i (m + 2) = okCount o (i + 1) (m + 1) := by
            simp [okCount, ho]
          simp only [ho]
          exact (show ∀ A B S : Nat, B = A → S + A = S + B by omega)
            (okCount o (i + 1) (m + 1)) (okCount o i (m + 2)) s.sent hcnt
      · dsimp only
        have hle := okCount_le o (m + 1) (i + 1)
        rw [e1, e2]
        cases ho : o i
        · have hcnt : okCount o i (m + 2) = 1 + okCount o (i + 1) (m + 1) := by
            simp [okCount, ho]
          simp only [ho]
          exact (show ∀ A B F M : Nat, B = 1 + A → F + (M + 1 - A) = F + (M + 2 - B) by omega)
            (okCount o (i + 1) (m + 1)) (okCount o i (m + 2)) s.failed m hcnt
        · have hcnt : okCount o i (m + 2) = okCount o (i + 1) (m + 1) := by
            simp [okCount, ho]
          simp only [ho]
          exact (show ∀ A B F M : Nat, B = A → A ≤ M + 1 →
              F + 1 + (M + 1 - A) = F + (M + 2 - B) by omega)
            (okCount o (i + 1) (m + 1)) (okCount o i (m + 2)) s.failed m hcnt hle
      · rfl
      · dsimp only
        rw [e3, e4]
        have hsum : sumDelays d i (m + 1) = d i + sumDelays d (i + 1) m := by
          simp [sumDelays]
        exact (show ∀ W X Y Z : Nat, Z = X + Y → W + X + Y = W + Z by omega)
          s.waited (d i) (sumDelays d (i + 1) m) (sumDelays d i (m + 1)) hsum
      · dsimp only
        rw [show runEventsStopSend o total K (c :: rest) i s.sent s.failed =
            (Event.progress (match o i with | .ok => s.sent + 1 | .fail _ => s.sent)
              (match o i with | .ok => s.failed | .fail _ => s.failed + 1) total c.number
              (errOf (o i))
              (jsRound100 ((match o i with | .ok => s.sent + 1 | .fail _ => s.sent) +
                (match o i with | .ok => s.failed | .fail _ => s.failed + 1)) total)) ::
            runEventsStopSend o total K rest (i + 1)
              (match o i with | .ok => s.sent + 1 | .fail _ => s.sent)
              (match o i with | .ok => s.failed | .fail _ => s.failed + 1) from by
          rw [runEventsStopSend]
          rw [if_neg (show ¬ i = K by omega)]]
        rw [List.append_assoc]
        rfl

/-- Characterization of the loop when the stop request arrives during the
pacing delay after attempt `K` (so `K` is not the last index): attempts
`i..K` all run, no later contact is attempted, but the delay after attempt
`K` — a plain `setTimeout` sleep — still elapses IN FULL (`waited` includes
`d K`); the stopped event follows attempt `K`'s progress event. -/
theorem campaignLoop_duringDelay (o : Nat → SendOutcome) (d : Nat → Nat) (total K : Nat) :
    ∀ (cs : List Contact) (i : Nat) (s : LoopSt), s.isSending = true →
      i + cs.length = total → i ≤ K → K < total - 1 →
      campaignLoop o d (.duringDelay K) total cs i s =
        { sent := s.sent + okCount o i (K + 1 - i),
          failed := s.failed + ((K + 1 - i) - okCount o i (K + 1 - i)),
          isSending := false,
          waited := s.waited + sumDelays d i (K + 1 - i),
          events := s.events ++ runEventsStopDelay o total K cs i s.sent s.failed } := by
  intro cs
  induction cs with
  | nil =>
    intro i s hs htot hiK hK
    simp only [List.length_nil, Nat.add_zero] at htot
    omega
  | cons c rest ih =>
    intro i s hs htot hiK hK
    unfold campaignLoop
    rw [if_neg (by simp [hs])]
    simp only []
    rw [if_neg (fun h => StopSpec.noConfusion h)]
    rcases Nat.eq_or_lt_of_le hiK with rfl | hlt
    · have hi : (i < total - 1 ∧ s.isSending = true) := ⟨by omega, hs⟩
      rw [if_pos hi, if_pos rfl]
      rw [campaignLoop_not_sending _ _ _ _ _ _ _ rfl]
      apply loopSt_ext
      · dsimp only
        cases ho : o i <;> simp [okCount, ho, Nat.add_sub_cancel_left]
      · dsimp only
        cases ho : o i <;> simp [okCount, ho, Nat.add_sub_cancel_left]
      · rfl
      · dsimp only
        rw [Nat.add_sub_cancel_left]
        simp [sumDelays]
      · dsimp only
        cases ho : o i <;>
          simp [runEventsStopDelay, errOf, ho, List.append_assoc]
    · have hi : (i < total - 1 ∧ s.isSending = true) := ⟨by omega, hs⟩
      rw [if_pos hi, if_neg (fun h => absurd (StopSpec.duringDelay.inj h) (by omega))]
      rw [ih (i + 1)]
      rotate_left
      · exact hs
      · simp only [List.length_cons] at htot
        omega
      · omega
      · omega
      obtain ⟨m, hm⟩ := Nat.exists_eq_succ_of_ne_zero (Nat.sub_ne_zero_of_lt hlt)
      have e1 : K + 1 - i = m + 2 := by omega
      have e2 : K + 1 - (i + 1) = m + 1 := by omega
      apply loopSt_ext
      · dsimp only
        rw [e1, e2]
        cases ho : o i
        · have hcnt : okCount o i (m + 2) = 1 + okCount o (i + 1) (m + 1) := by
            simp [okCount, ho]
          simp only [ho]
          exact (show ∀ A B S : Nat, B = 1 + A → S + 1 + A = S + B by omega)
            (okCount o (i + 1) (m + 1)) (okCount o i (m + 2)) s.sent hcnt
        · have hcnt : okCount o i (m + 2) = okCount o (i + 1) (m + 1) := by
            simp [okCount, ho]
          simp only [ho]
          exact (show ∀ A B S : Nat, B = A → S + A = S + B by omega)
            (okCount o (i + 1) (m + 1)) (okCount o i (m + 2)) s.sent hcnt
      · dsimp only
        have hle := okCount_le o (m + 1) (i + 1)
        rw [e1, e2]
        cases ho : o i
        · have hcnt : okCount o i (m + 2) = 1 + okCount o (i + 1) (m + 1) := by
            simp [okCount, ho]
          simp only [ho]
          exact (show ∀ A B F M : Nat, B = 1 + A → F + (M + 1 - A) = F + (M + 2 - B) by omega)
            (okCount o (i + 1) (m + 1)) (okCount o i (m + 2)) s.failed m hcnt
        · have hcnt : okCount o i (m + 2) = okCount o (i + 1) (m + 1) := by
            simp [okCount, ho]
          simp only [ho]
          exact (show ∀ A B F M : Nat, B = A → A ≤ M + 1 →
              F + 1 + (M + 1 - A) = F + (M + 2 - B) by omega)
            (okCount o (i + 1) (m + 1)) (okCount o i (m + 2)) s.failed m hcnt hle
      · rfl
      · dsimp only
        rw [e1, e2]
        have hsum : sumDelays d i (m + 2) = d i + sumDelays d (i + 1) (m + 1) := by
          simp [sumDelays]
        exact (show ∀ W X Y Z : Nat, Z = X + Y → W + X + Y = W + Z by omega)
          s.waited (d i) (sumDelays d (i + 1) (m + 1)) (sumDelays d i (m + 2)) hsum
      · dsimp only
        rw [show runEventsStopDelay o total K (c :: rest) i s.sent s.failed =
            (Event.progress (match o i with | .ok => s.sent + 1 | .fail _ => s.sent)
              (match o i with | .ok => s.failed | .fail _ => s.failed + 1) total c.number
              (errOf (o i))
              (jsRound100 ((match o i with | .ok => s.sent + 1 | .fail _ => s.sent) +
                (match o i with | .ok => s.failed | .fail _ => s.failed + 1)) total)) ::
            runEventsStopDelay o total K rest (i + 1)
              (match o i with | .ok => s.sent + 1 | .fail _ => s.sent)
              (match o i with | .ok => s.failed | .fail _ => s.failed + 1) from by
          rw [runEventsStopDelay]
          rw [if_neg (show ¬ i = K by omega)]]
        rw [List.append_assoc]
        rfl

theorem listSwap_length (l : List α) (i j : Nat) : (listSwap l i j).length = l.length := by
  unfold listSwap
  cases l.get? i <;> cases l.get? j <;> simp

theorem fyAux_length (rand : Nat → Nat) : ∀ (k : Nat) (l : List α),
    (fyAux rand k l).length = l.length := by
  intro k
  induction k with
  | zero => intro l; rfl
  | succ m ih =>
    intro l
    unfold fyAux
    rw [ih, listSwap_length]

theorem shuffleArray_length (l : List α) (rand : Nat → Nat) :
    (shuffleArray l rand).length = l.length :=
  fyAux_length rand (l.length - 1) l

/-- A `duringSend` stop index that is never reached behaves like no stop at
all. -/
theorem campaignLoop_duringSend_vacuous (o : Nat → SendOutcome) (d : Nat → Nat)
    (total K : Nat) (hK : total ≤ K) :
    ∀ (cs : List Contact) (i : Nat) (s : LoopSt), i + cs.length = total →
      campaignLoop o d (.duringSend K) total cs i s =
        campaignLoop o d .never total cs i s := by
  intro cs
  induction cs with
  | nil => intro i s htot; rfl
  | cons c rest ih =>
    intro i s htot
    unfold campaignLoop
    by_cases hsend : s.isSending = false
    · rw [if_pos hsend, if_pos hsend]
    · rw [if_neg hsend, if_neg hsend]
      simp only []
      rw [if_neg (fun h => absurd (StopSpec.duringSend.inj h)
          (by simp only [List.length_cons] at htot; omega))]
      rw [if_neg (fun h => StopSpec.noConfusion h)]
      rw [if_neg (fun h => StopSpec.noConfusion h)]
      rw [if_neg (fun h => StopSpec.noConfusion h)]
      exact ih (i + 1) _ (by simp only [List.length_cons] at htot ⊢; omega)

/-- A `duringDelay` stop index whose delay is never entered behaves like no
stop at all. -/
theorem campaignLoop_duringDelay_vacuous (o : Nat → SendOutcome) (d : Nat → Nat)
    (total K : Nat) (hK : total - 1 ≤ K) :
    ∀ (cs : List Contact) (i : Nat) (s : LoopSt), i + cs.length = total →
      campaignLoop o d (.duringDelay K) total cs i s =
        campaignLoop o d .never total cs i s := by
  intro cs
  induction cs with
  | nil => intro i s htot; rfl
  | cons c rest ih =>
    intro i s htot
    unfold campaignLoop
    by_cases hsend : s.isSending = false
    · rw [if_pos hsend, if_pos hsend]
    · rw [if_neg hsend, if_neg hsend]
      simp only []
      rw [if_neg (fun h => StopSpec.noConfusion h)]
      by_cases hdel : i < total - 1
      · rw [if_neg (fun h => absurd (StopSpec.duringDelay.inj h) (by omega))]
        exact ih (i + 1) _ (by simp only [List.length_cons] at htot ⊢; omega)
      · have hng : ∀ b : Bool, ¬ (i < total - 1 ∧ b = true) := by
          rintro b ⟨hcon, -⟩
          exact hdel hcon
        rw [if_neg (hng _), if_neg (hng _)]
        exact ih (i + 1) _ (by simp only [List.length_cons] at htot ⊢; omega)

theorem progPairs_append (a b : List Event) :
    progPairs (a ++ b) = progPairs a ++ progPairs b := by
  unfold progPairs
  exact List.filterMap_append a b _

theorem progPairs_started (n : Nat) : progPairs [Event.started n] = [] := rfl

theorem progPairs_finished (a b c : Nat) : progPairs [Event.finished a b c] = [] := rfl

theorem runEvents_progPairs (o : Nat → SendOutcome) (total : Nat) :
    ∀ (cs : List Contact) (i sent failed : Nat),
      progPairs (runEvents o total cs i sent failed) =
        (match o i with | .ok => (sent + 1, failed) | .fail _ => (sent, failed + 1)) ::
          progPairs (runEvents o total cs.tail (i + 1)
            (match o i with | .ok => sent + 1 | .fail _ => sent)
            (match o i with | .ok => failed | .fail _ => failed + 1)) ∨
      cs = [] := by
  intro cs i sent failed
  cases cs with
  | nil => right; rfl
  | cons c rest =>
    left
    cases ho : o i <;> simp [runEvents, progPairs, ho]

theorem runEvents_length (o : Nat → SendOutcome) (total : Nat) :
    ∀ (cs : List Contact) (i sent failed : Nat),
      (runEvents o total cs i sent failed).length = cs.length := by
  intro cs
  induction cs with
  | nil => intro i sent failed; rfl
  | cons c rest ih =>
    intro i sent failed
    unfold runEvents
    simp only [List.length_cons, ih]

theorem runEvents_progPairs_length (o : Nat → SendOutcome) (total : Nat) :
    ∀ (cs : List Contact) (i sent failed : Nat),
      (progPairs (runEvents o total cs i sent failed)).length = cs.length := by
  intro cs
  induction cs with
  | nil => intro i sent failed; rfl
  | cons c rest ih =>
    intro i sent failed
    unfold runEvents progPairs
    cases ho : o i <;> simp only [ho, List.filterMap_cons] <;>
      simpa [progPairs] using ih (i + 1) _ _

/-- Every counter pair in the trace of the remaining attempts dominates the
starting counters, and the pairs are monotonically non-decreasing. -/
theorem runEvents_mono (o : Nat → SendOutcome) (total : Nat) :
    ∀ (cs : List Contact) (i sent failed : Nat),
      (∀ p ∈ progPairs (runEvents o total cs i sent failed),
        sent ≤ p.1 ∧ failed ≤ p.2) ∧
      monoPairs (progPairs (runEvents o total cs i sent failed)) := by
  intro cs
  induction cs with
  | nil =>
    intro i sent failed
    exact ⟨fun p hp => absurd hp (List.not_mem_nil p), List.chain'_nil⟩
  | cons c rest ih =>
    intro i sent failed
    unfold runEvents
    cases ho : o i with
    | ok =>
      simp only [ho]
      obtain ⟨ihb, ihm⟩ := ih (i + 1) (sent + 1) failed
      constructor
      · intro p hp
        simp only [progPairs, List.filterMap_cons, List.mem_cons] at hp
        rcases hp with rfl | hp2
        · exact ⟨Nat.le_succ sent, le_refl failed⟩
        · obtain ⟨h1, h2⟩ := ihb p hp2
          exact ⟨by omega, h2⟩
      · show List.Chain' _ ((sent + 1, failed) :: _)
        rw [List.chain'_cons']
        refine ⟨?_, ihm⟩
        intro q hq
        have hqmem : q ∈ progPairs (runEvents o total rest (i + 1) (sent + 1) failed) :=
          List.mem_of_mem_head? hq
        obtain ⟨h1, h2⟩ := ihb q hqmem
        exact ⟨h1, h2⟩
    | fail m =>
      simp only [ho]
      obtain ⟨ihb, ihm⟩ := ih (i + 1) sent (failed + 1)
      constructor
      · intro p hp
        simp only [progPairs, List.filterMap_cons, List.mem_cons] at hp
        rcases hp with rfl | hp2
        · exact ⟨le_refl sent, Nat.le_succ failed⟩
        · obtain ⟨h1, h2⟩ := ihb p hp2
          exact ⟨h1, by omega⟩
      · show List.Chain' _ ((sent, failed + 1) :: _)
        rw [List.chain'_cons']
        refine ⟨?_, ihm⟩
        intro q hq
        have hqmem : q ∈ progPairs (runEvents o total rest (i + 1) sent (failed + 1)) :=
          List.mem_of_mem_head? hq
        obtain ⟨h1, h2⟩ := ihb q hqmem
        exact ⟨h1, h2⟩

/-- The counter pairs of a stop-during-send trace are those of the plain
trace truncated to the attempts that actually ran. -/
theorem progPairs_stopSend (o : Nat → SendOutcome) (total K : Nat) :
    ∀ (cs : List Contact) (i sent failed : Nat), i ≤ K →
      progPairs (runEventsStopSend o total K cs i sent failed) =
        progPairs (runEvents o total (cs.take (K + 1 - i)) i sent failed) := by
  intro cs
  induction cs with
  | nil => intro i sent failed hiK; simp [runEventsStopSend, runEvents]
  | cons c rest ih =>
    intro i sent failed hiK
    unfold runEventsStopSend
    by_cases hK : i = K
    · subst hK
      rw [if_pos rfl]
      rw [show i + 1 - i = 1 from by omega]
      cases ho : o i <;> simp [progPairs, runEvents, ho]
    · rw [if_neg hK]
      have h2 : K + 1 - i = (K + 1 - (i + 1)) + 1 := by omega
      rw [h2, List.take_succ_cons]
      cases ho : o i with
      | ok =>
        have ihx := ih (i + 1) (sent + 1) failed (by omega)
        unfold runEvents progPairs
        unfold progPairs at ihx
        simp only [List.filterMap_cons, ho]
        rw [ihx]
      | fail mg =>
        have ihx := ih (i + 1) sent (failed + 1) (by omega)
        unfold runEvents progPairs
        unfold progPairs at ihx
        simp only [List.filterMap_cons, ho]
        rw [ihx]

/-- The counter pairs of a stop-during-delay trace are those of the plain
trace truncated to the attempts that actually ran. -/
theorem progPairs_stopDelay (o : Nat → SendOutcome) (total K : Nat) :
    ∀ (cs : List Contact) (i sent failed : Nat), i ≤ K →
      progPairs (runEventsStopDelay o total K cs i sent failed) =
        progPairs (runEvents o total (cs.take (K + 1 - i)) i sent failed) := by
  intro cs
  induction cs with
  | nil => intro i sent failed hiK; simp [runEventsStopDelay, runEvents]
  | cons c rest ih =>
    intro i sent failed hiK
    unfold runEventsStopDelay
    by_cases hK : i = K
    · subst hK
      rw [if_pos rfl]
      rw [show i + 1 - i = 1 from by omega]
      cases ho : o i <;> simp [progPairs, runEvents, ho]
    · rw [if_neg hK]
      have h2 : K + 1 - i = (K + 1 - (i + 1)) + 1 := by omega
      rw [h2, List.take_succ_cons]
      cases ho : o i with
      | ok =>
        have ihx := ih (i + 1) (sent + 1) failed (by omega)
        unfold runEvents progPairs
        unfold progPairs at ihx
        simp only [List.filterMap_cons, ho]
        rw [ihx]
      | fail mg =>
        have ihx := ih (i + 1) sent (failed + 1) (by omega)
        unfold runEvents progPairs
        unfold progPairs at ihx
        simp only [List.filterMap_cons, ho]
        rw [ihx]

theorem stopped_mem_stopSend (o : Nat → SendOutcome) (total K : Nat) :
    ∀ (cs : List Contact) (i sent failed : Nat), i ≤ K → K < i + cs.length →
      Event.stopped ∈ runEventsStopSend o total K cs i sent failed := by
  intro cs
  induction cs with
  | nil => intro i sent failed hiK hKlt; simp at hKlt; omega
  | cons c rest ih =>
    intro i sent failed hiK hKlt
    unfold runEventsStopSend
    by_cases hK : i = K
    · rw [if_pos hK]
      exact List.mem_cons_self _ _
    · rw [if_neg hK]
      refine List.mem_cons_of_mem _ ?_
      refine ih (i + 1) _ _ (by omega) ?_
      simp only [List.length_cons] at hKlt
      omega

theorem stopped_mem_stopDelay (o : Nat → SendOutcome) (total K : Nat) :
    ∀ (cs : List Contact) (i sent failed : Nat), i ≤ K → K < i + cs.length →
      Event.stopped ∈ runEventsStopDelay o total K cs i sent failed := by
  intro cs
  induction cs with
  | nil => intro i sent failed hiK hKlt; simp at hKlt; omega
  | cons c rest ih =>
    intro i sent failed hiK hKlt
    unfold runEventsStopDelay
    by_cases hK : i = K
    · rw [if_pos hK]
      exact List.mem_cons_of_mem _ (List.mem_cons_self _ _)
    · rw [if_neg hK]
      refine List.mem_cons_of_mem _ ?_
      refine ih (i + 1) _ _ (by omega) ?_
      simp only [List.length_cons] at hKlt
      omega

theorem okCount_snoc (o : Nat → SendOutcome) :
    ∀ (n i : Nat), okCount o i (n + 1) =
      okCount o i n + (if o (i + n) = .ok then 1 else 0) := by
  intro n
  induction n with
  | zero => intro i; simp [okCount]
  | succ m ih =>
    intro i
    rw [show m + 1 + 1 = (m + 1) + 1 from rfl]
    unfold okCount
    rw [ih (i + 1)]
    have : i + 1 + m = i + (m + 1) := by omega
    rw [this]
    omega

theorem okCount_all_ok (o : Nat → SendOutcome) (h : ∀ j, o j = .ok) :
    ∀ (n i : Nat), okCount o i n = n := by
  intro n
  induction n with
  | zero => intro i; rfl
  | succ m ih =>
    intro i
    unfold okCount
    rw [h i, if_pos rfl, ih (i + 1)]
    omega

/-- The `j`-th progress event of a plain trace: cumulative counters, the
attempted contact's number, the attempt's error (if any), and the exact
rounded percentage. -/
theorem runEvents_getElem (o : Nat → SendOutcome) (total : Nat) :
    ∀ (cs : List Contact) (i sent failed j : Nat), j < cs.length →
      (runEvents o total cs i sent failed)[j]? = (cs[j]?).map fun ct =>
        .progress (sent + okCount o i (j + 1)) (failed + ((j + 1) - okCount o i (j + 1)))
          total ct.number (errOf (o (i + j)))
          (jsRound100 (sent + failed + (j + 1)) total) := by
  intro cs
  induction cs with
  | nil => intro i sent failed j hj; cases hj
  | cons c rest ih =>
    intro i sent failed j hj
    cases j with
    | zero =>
      cases ho : o i with
      | ok =>
        have h1 : okCount o i (0 + 1) = 1 := by simp [okCount, ho]
        simp only [runEvents, Nat.add_zero, ho, List.getElem?_cons_zero, Option.map_some',
          errOf]
        rw [Option.some.injEq, Event.progress.injEq, h1]
        exact ⟨rfl, rfl, rfl, rfl, rfl,
          congrArg (fun x => jsRound100 x total)
            ((show ∀ a b : Nat, a + 1 + b = a + b + (0 + 1) by omega) sent failed)⟩
      | fail mg =>
        have h1 : okCount o i (0 + 1) = 0 := by simp [okCount, ho]
        simp only [runEvents, Nat.add_zero, ho, List.getElem?_cons_zero, Option.map_some',
          errOf]
        rw [Option.some.injEq, Event.progress.injEq, h1]
        exact ⟨rfl, rfl, rfl, rfl, rfl,
          congrArg (fun x => jsRound100 x total)
            ((show ∀ a b : Nat, a + (b + 1) = a + b + (0 + 1) by omega) sent failed)⟩
    | succ m =>
      simp only [List.length_cons] at hj
      have hm : m < rest.length := by omega
      cases ho : o i with
      | ok =>
        have ihx := ih (i + 1) (sent + 1) failed m hm
        simp only [runEvents, ho, List.getElem?_cons_succ]
        rw [ihx]
        have hcnt : okCount o i (m + 1 + 1) = 1 + okCount o (i + 1) (m + 1) := by
          simp [okCount, ho]
        cases hcm : rest[m]? with
        | none => rfl
        | some ct =>
          simp only [Option.map_some']
          rw [Option.some.injEq, Event.progress.injEq]
          refine ⟨?_, ?_, rfl, rfl, ?_, ?_⟩
          · exact (show ∀ A B S : Nat, B = 1 + A → S + 1 + A = S + B by omega)
              (okCount o (i + 1) (m + 1)) (okCount o i (m + 1 + 1)) sent hcnt
          · exact (show ∀ A B F M : Nat, B = 1 + A → F + (M + 1 - A) = F + (M + 1 + 1 - B)
                by omega)
              (okCount o (i + 1) (m + 1)) (okCount o i (m + 1 + 1)) failed m hcnt
          · exact congrArg (fun x => errOf (o x))
              ((show ∀ a b : Nat, a + 1 + b = a + (b + 1) by omega) i m)
          · exact congrArg (fun x => jsRound100 x total)
              ((show ∀ a b e : Nat, a + 1 + b + (e + 1) = a + b + (e + 1 + 1) by omega)
                sent failed m)
      | fail mg =>
        have ihx := ih (i + 1) sent (failed + 1) m hm
        simp only [runEvents, ho, List.getElem?_cons_succ]
        rw [ihx]
        have hcnt : okCount o i (m + 1 + 1) = okCount o (i + 1) (m + 1) := by
          simp [okCount, ho]
        cases hcm : rest[m]? with
        | none => rfl
        | some ct =>
          simp only [Option.map_some']
          rw [Option.some.injEq, Event.progress.injEq]
          have hle := okCount_le o (m + 1) (i + 1)
          refine ⟨?_, ?_, rfl, rfl, ?_, ?_⟩
          · exact (show ∀ A B S : Nat, B = A → S + A = S + B by omega)
              (okCount o (i + 1) (m + 1)) (okCount o i (m + 1 + 1)) sent hcnt
          · exact (show ∀ A B F M : Nat, B = A → A ≤ M + 1 →
                F + 1 + (M + 1 - A) = F + (M + 1 + 1 - B) by omega)
              (okCount o (i + 1) (m + 1)) (okCount o i (m + 1 + 1)) failed m hcnt hle
          · exact congrArg (fun x => errOf (o x))
              ((show ∀ a b : Nat, a + 1 + b = a + (b + 1) by omega) i m)
          · exact congrArg (fun x => jsRound100 x total)
              ((show ∀ a b e : Nat, a + (b + 1) + (e + 1) = a + b + (e + 1 + 1) by omega)
                sent failed m)

/-- When every attempt succeeds, every progress event of the plain trace
carries no error. -/
theorem runEvents_error_none (o : Nat → SendOutcome) (total : Nat)
    (hok : ∀ j, o j = .ok) :
    ∀ (cs : List Contact) (i sent failed a b t : Nat) (cur : String)
      (err : Option String) (pct : Nat),
      Event.progress a b t cur err pct ∈ runEvents o total cs i sent failed →
      err = none := by
  intro cs
  induction cs with
  | nil => intro i sent failed a b t cur err pct hmem; cases hmem
  | cons c rest ih =>
    intro i sent failed a b t cur err pct hmem
    unfold runEvents at hmem
    rw [hok i] at hmem
    simp only [errOf] at hmem
    rcases List.mem_cons.mp hmem with heq | hmem2
    · cases heq
      rfl
    · exact ih (i + 1) _ _ _ _ _ _ _ _ hmem2

/-- C1 (amended): in every campaign run — stopped or not — the `sent` and
`failed` counters carried by successive campaign-progress events are
monotonically non-decreasing; at the terminal campaign-finished event,
`sent + failed == total` (the length of the contact list passed to start)
holds for every run that was not stopped early.  (A stop request mid-run
makes the run end after the in-flight attempt, so the finished event then
reports `sent + failed` equal to the number of attempts made, which can be
smaller than `total` — see the counterexample.) -/
theorem campaign_counters_invariant (st : EngineState) (contacts : List Contact)
    (imagePath audioPath message : Option String) (o : Nat → SendOutcome)
    (d rand : Nat → Nat) (stop : StopSpec) (r : RunOutcome)
    (hok : startBulkSend st contacts imagePath audioPath message o d rand stop = .ok r) :
    monoPairs (progPairs r.events) ∧
    (stop = .never →
      r.events.getLast? = some (.finished (okCount o 0 contacts.length)
        (contacts.length - okCount o 0 contacts.length) contacts.length) ∧
      okCount o 0 contacts.length + (contacts.length - okCount o 0 contacts.length) =
        contacts.length) := by
  unfold startBulkSend at hok
  by_cases hc : st.isConnected = false
  · rw [if_pos hc] at hok
    cases hok
  rw [if_neg hc] at hok
  by_cases hs : st.isSending = true
  · rw [if_pos hs] at hok
    cases hok
  rw [if_neg hs] at hok
  simp only [] at hok
  cases hok
  have hlen : (shuffleArray contacts rand).length = contacts.length :=
    shuffleArray_length contacts rand
  have hstart : (0 : Nat) + (shuffleArray contacts rand).length = contacts.length := by
    omega
  constructor
  · dsimp only
    rw [progPairs_append]
    rw [show progPairs [Event.finished
        (campaignLoop o d stop contacts.length (shuffleArray contacts rand) 0
          { sent := 0, failed := 0, isSending := true, waited := 0,
            events := [Event.started contacts.length] }).sent
        (campaignLoop o d stop contacts.length (shuffleArray contacts rand) 0
          { sent := 0, failed := 0, isSending := true, waited := 0,
            events := [Event.started contacts.length] }).failed
        contacts.length] = [] from rfl, List.append_nil]
    cases stop with
    | never =>
      rw [campaignLoop_never o d contacts.length _ 0 _ rfl hstart]
      dsimp only
      rw [progPairs_append, show progPairs [Event.started contacts.length] = [] from rfl,
        List.nil_append]
      exact (runEvents_mono o contacts.length _ 0 0 0).2
    | duringSend K =>
      by_cases hK : K < contacts.length
      · rw [campaignLoop_duringSend o d contacts.length K _ 0 _ rfl hstart (by omega) hK]
        dsimp only
        rw [progPairs_append, show progPairs [Event.started contacts.length] = [] from rfl,
          List.nil_append]
        rw [progPairs_stopSend o contacts.length K _ 0 0 0 (by omega)]
        exact (runEvents_mono o contacts.length _ 0 0 0).2
      · rw [campaignLoop_duringSend_vacuous o d contacts.length K (by omega) _ 0 _ hstart]
        rw [campaignLoop_never o d contacts.length _ 0 _ rfl hstart]
        dsimp only
        rw [progPairs_append, show progPairs [Event.started contacts.length] = [] from rfl,
          List.nil_append]
        exact (runEvents_mono o contacts.length _ 0 0 0).2
    | duringDelay K =>
      by_cases hK : K < contacts.length - 1
      · rw [campaignLoop_duringDelay o d contacts.length K _ 0 _ rfl hstart (by omega) hK]
        dsimp only
        rw [progPairs_append, show progPairs [Event.started contacts.length] = [] from rfl,
          List.nil_append]
        rw [progPairs_stopDelay o contacts.length K _ 0 0 0 (by omega)]
        exact (runEvents_mono o contacts.length _ 0 0 0).2
      · rw [campaignLoop_duringDelay_vacuous o d contacts.length K (by omega) _ 0 _ hstart]
        rw [campaignLoop_never o d contacts.length _ 0 _ rfl hstart]
        dsimp only
        rw [progPairs_append, show progPairs [Event.started contacts.length] = [] from rfl,
          List.nil_append]
        exact (runEvents_mono o contacts.length _ 0 0 0).2
  · rintro rfl
    rw [campaignLoop_never o d contacts.length _ 0 _ rfl hstart]
    dsimp only
    constructor
    · rw [List.getLast?_concat, hlen, Option.some.injEq, Event.finished.injEq]
      exact ⟨Nat.zero_add _, Nat.zero_add _, rfl⟩
    · exact (show ∀ A T : Nat, A ≤ T → A + (T - A) = T by omega)
        (okCount o 0 contacts.length) contacts.length (okCount_le o contacts.length 0)

theorem campaign_counters_invariant_witness :
    monoPairs (progPairs [Event.started 1,
      Event.progress 1 0 1 "5511911111111" none 100, Event.finished 1 0 1]) ∧
    (StopSpec.never = StopSpec.never →
      ([Event.started 1, Event.progress 1 0 1 "5511911111111" none 100,
          Event.finished 1 0 1].getLast? = some (Event.finished 1 0 1)) ∧
        (1 + 0 = 1)) :=
  campaign_counters_invariant ⟨true, false, none⟩
    [⟨"5511911111111", "a", ⟨none, none, none⟩⟩] none none none (fun _ => .ok)
    (fun _ => 0) (fun _ => 0) .never
    ⟨⟨true, false, some ⟨[⟨"5511911111111", "a", ⟨none, none, none⟩⟩], none, none, 1, 0, 1⟩⟩,
     [Event.started 1, Event.progress 1 0 1 "5511911111111" none 100, Event.finished 1 0 1],
     0⟩
    (by decide)

/-- C1 counterexample: in a 2-contact run in which `stopBulkSend` arrives
while the first attempt is in flight, the terminal campaign-finished event
reports `sent = 1, failed = 0, total = 2`, so `sent + failed ≠ total`: the
claimed terminal equality does not hold for stopped runs. -/
theorem campaign_counters_counterexample :
    (startBulkSend ⟨true, false, none⟩
        [⟨"5511911111111", "a", ⟨none, none, none⟩⟩,
         ⟨"5521922222222", "b", ⟨none, none, none⟩⟩] none none none (fun _ => .ok)
        (fun _ => 0) (fun _ => 0) (.duringSend 0)).toOption.map
      (fun r => r.events.getLast?) = some (some (.finished 1 0 2)) ∧ 1 + 0 ≠ 2 := by
  decide

/-- C3 (amended): `stopBulkSend` sets the cancellation flag (`isSending :=
false`) and emits the campaign-stopped event immediately; when no campaign is
running it is a no-op on the state and not an error.  In a run stopped while
attempt `K` is in flight, exactly attempts `0..K` are made (no contact after
the in-flight one is ever attempted) and the pacing delay after attempt `K`
is never entered (`waited` sums only the `K` earlier delays).  In a run
stopped during the pacing delay after attempt `K`, exactly attempts `0..K`
are made, but the delay in progress is NOT skipped: it is waited out in full
(`waited` includes all `K + 1` delays — see the counterexample). -/
theorem stopBulkSend_behavior :
    (∀ st : EngineState, stopBulkSend st = ({ st with isSending := false }, [Event.stopped])) ∧
    (∀ st : EngineState, st.isSending = false → (stopBulkSend st).1 = st) ∧
    (∀ (st : EngineState) (contacts : List Contact)
      (imagePath audioPath message : Option String) (o : Nat → SendOutcome)
      (d rand : Nat → Nat) (K : Nat) (r : RunOutcome),
      startBulkSend st contacts imagePath audioPath message o d rand (.duringSend K) = .ok r →
      K < contacts.length →
      (progPairs r.events).length = K + 1 ∧ Event.stopped ∈ r.events ∧
        r.waited = sumDelays d 0 K) ∧
    (∀ (st : EngineState) (contacts : List Contact)
      (imagePath audioPath message : Option String) (o : Nat → SendOutcome)
      (d rand : Nat → Nat) (K : Nat) (r : RunOutcome),
      startBulkSend st contacts imagePath audioPath message o d rand (.duringDelay K) = .ok r →
      K < contacts.length - 1 →
      (progPairs r.events).length = K + 1 ∧ Event.stopped ∈ r.events ∧
        r.waited = sumDelays d 0 (K + 1)) := by
  refine ⟨fun st => rfl, ?_, ?_, ?_⟩
  · intro st h
    cases st with
    | mk c s camp =>
      simp only [EngineState.isSending] at h
      subst h
      rfl
  · intro st contacts imagePath audioPath message o d rand K r hok hK
    unfold startBulkSend at hok
    by_cases hc : st.isConnected = false
    · rw [if_pos hc] at hok; cases hok
    rw [if_neg hc] at hok
    by_cases hs : st.isSending = true
    · rw [if_pos hs] at hok; cases hok
    rw [if_neg hs] at hok
    simp only [] at hok
    cases hok
    have hlen : (shuffleArray contacts rand).length = contacts.length :=
      shuffleArray_length contacts rand
    have hstart : (0 : Nat) + (shuffleArray contacts rand).length = contacts.length := by
      omega
    rw [campaignLoop_duringSend o d contacts.length K _ 0 _ rfl hstart (by omega) hK]
    dsimp only
    refine ⟨?_, ?_, ?_⟩
    · rw [progPairs_append, progPairs_append,
        show progPairs [Event.started contacts.length] = [] from rfl, List.nil_append,
        show ∀ a b c : Nat, progPairs [Event.finished a b c] = [] from fun a b c => rfl,
        List.append_nil]
      rw [progPairs_stopSend o contacts.length K _ 0 0 0 (by omega)]
      rw [runEvents_progPairs_length o contacts.length _ 0 0 0]
      rw [List.length_take, hlen]
      exact Nat.min_eq_left (by omega)
    · refine List.mem_append.mpr (Or.inl ?_)
      refine List.mem_append.mpr (Or.inr ?_)
      exact stopped_mem_stopSend o contacts.length K _ 0 0 0 (by omega) (by omega)
    · rw [Nat.zero_add, Nat.sub_zero]
  · intro st contacts imagePath audioPath message o d rand K r hok hK
    unfold startBulkSend at hok
    by_cases hc : st.isConnected = false
    · rw [if_pos hc] at hok; cases hok
    rw [if_neg hc] at hok
    by_cases hs : st.isSending = true
    · rw [if_pos hs] at hok; cases hok
    rw [if_neg hs] at hok
    simp only [] at hok
    cases hok
    have hlen : (shuffleArray contacts rand).length = contacts.length :=
      shuffleArray_length contacts rand
    have hstart : (0 : Nat) + (shuffleArray contacts rand).length = contacts.length := by
      omega
    rw [campaignLoop_duringDelay o d contacts.length K _ 0 _ rfl hstart (by omega) hK]
    dsimp only
    refine ⟨?_, ?_, ?_⟩
    · rw [progPairs_append, progPairs_append,
        show progPairs [Event.started contacts.length] = [] from rfl, List.nil_append,
        show ∀ a b c : Nat, progPairs [Event.finished a b c] = [] from fun a b c => rfl,
        List.append_nil]
      rw [progPairs_stopDelay o contacts.length K _ 0 0 0 (by omega)]
      rw [runEvents_progPairs_length o contacts.length _ 0 0 0]
      rw [List.length_take, hlen]
      exact Nat.min_eq_left (by omega)
    · refine List.mem_append.mpr (Or.inl ?_)
      refine List.mem_append.mpr (Or.inr ?_)
      exact stopped_mem_stopDelay o contacts.length K _ 0 0 0 (by omega) (by omega)
    · rw [Nat.zero_add, Nat.sub_zero]

theorem stopBulkSend_behavior_witness :
    (progPairs [Event.started 2, Event.stopped,
        Event.progress 1 0 2 "5521922222222" none 50, Event.finished 1 0 2]).length = 0 + 1 ∧
      Event.stopped ∈ [Event.started 2, Event.stopped,
        Event.progress 1 0 2 "5521922222222" none 50, Event.finished 1 0 2] ∧
      (0 : Nat) = sumDelays (fun _ => 7) 0 0 :=
  stopBulkSend_behavior.2.2.1 ⟨true, false, none⟩
    [⟨"5511911111111", "a", ⟨none, none, none⟩⟩,
     ⟨"5521922222222", "b", ⟨none, none, none⟩⟩] none none none (fun _ => .ok)
    (fun _ => 7) (fun _ => 0) 0
    ⟨⟨true, false, some ⟨[⟨"5511911111111", "a", ⟨none, none, none⟩⟩,
        ⟨"5521922222222", "b", ⟨none, none, none⟩⟩], none, none, 1, 0, 2⟩⟩,
     [Event.started 2, Event.stopped, Event.progress 1 0 2 "5521922222222" none 50,
      Event.finished 1 0 2], 0⟩
    (by decide) (by decide)

/-- C3 counterexample: with two contacts and a 30000 ms pacing delay, a stop
request arriving during the delay after attempt 0 does not cut the delay
short — the run's total slept time is the full 30000 ms, refuting "the pacing
delay in progress is skipped rather than waited out in full" (the plain
`setTimeout`-based sleep is not interruptible). -/
theorem stop_delay_waited_in_full_counterexample :
    (startBulkSend ⟨true, false, none⟩
        [⟨"5511911111111", "a", ⟨none, none, none⟩⟩,
         ⟨"5521922222222", "b", ⟨none, none, none⟩⟩] none none none (fun _ => .ok)
        (fun _ => 30000) (fun _ => 0) (.duringDelay 0)).toOption.map RunOutcome.waited =
      some 30000 ∧ ¬ (30000 < 30000) := by decide

/-- C7: in a run with no stop request, every contact is attempted (the batch
is never aborted by a failure: there are exactly `total` progress events
between the started and finished events), each attempt emits exactly one
campaign-progress event, positioned in attempt order and carrying the
cumulative sent and failed counters, the attempted contact's number, the
error message exactly when the attempt failed (a failure increments `failed`
by exactly 1), and the completion percentage
`round(100 * (sent + failed) / total)`. -/
theorem progress_event_per_attempt (st : EngineState) (contacts : List Contact)
    (imagePath audioPath message : Option String) (o : Nat → SendOutcome)
    (d rand : Nat → Nat) (r : RunOutcome)
    (hok : startBulkSend st contacts imagePath audioPath message o d rand .never = .ok r) :
    r.events.length = contacts.length + 2 ∧
    r.events.head? = some (.started contacts.length) ∧
    r.events.getLast? = some (.finished (okCount o 0 contacts.length)
      (contacts.length - okCount o 0 contacts.length) contacts.length) ∧
    (∀ j, j < contacts.length →
      r.events[j + 1]? = ((shuffleArray contacts rand)[j]?).map fun ct =>
        .progress (okCount o 0 (j + 1)) ((j + 1) - okCount o 0 (j + 1)) contacts.length
          ct.number (errOf (o j)) (jsRound100 (j + 1) contacts.length)) ∧
    (∀ j mj, o j = .fail mj →
      (j + 1) - okCount o 0 (j + 1) = (j - okCount o 0 j) + 1) := by
  unfold startBulkSend at hok
  by_cases hc : st.isConnected = false
  · rw [if_pos hc] at hok; cases hok
  rw [if_neg hc] at hok
  by_cases hs : st.isSending = true
  · rw [if_pos hs] at hok; cases hok
  rw [if_neg hs] at hok
  simp only [] at hok
  cases hok
  have hlen : (shuffleArray contacts rand).length = contacts.length :=
    shuffleArray_length contacts rand
  have hstart : (0 : Nat) + (shuffleArray contacts rand).length = contacts.length := by
    omega
  rw [campaignLoop_never o d contacts.length _ 0 _ rfl hstart]
  dsimp only
  refine ⟨?_, rfl, ?_, ?_, ?_⟩
  · rw [List.length_append, List.length_append,
      runEvents_length o contacts.length _ 0 0 0, hlen]
    exact (show ∀ T : Nat, [Event.started T].length + T + [Event.finished 0 0 0].length =
      T + 2 by intro T; simp; omega) contacts.length
  · rw [List.getLast?_concat, hlen, Option.some.injEq, Event.finished.injEq]
    exact ⟨Nat.zero_add _, Nat.zero_add _, rfl⟩
  · intro j hj
    have hj' : j < (shuffleArray contacts rand).length := by omega
    rw [List.getElem?_append_left (by
      simp only [List.length_append, List.length_cons, List.length_nil,
        runEvents_length o contacts.length _ 0 0 0]
      omega)]
    rw [show ([Event.started contacts.length] ++
        runEvents o contacts.length (shuffleArray contacts rand) 0 0 0)[j + 1]? =
        (runEvents o contacts.length (shuffleArray contacts rand) 0 0 0)[j]? from
      List.getElem?_cons_succ]
    rw [runEvents_getElem o contacts.length _ 0 0 0 j hj']
    simp only [Nat.zero_add]
  · intro j mj hfail
    have hsnoc := okCount_snoc o j 0
    simp only [Nat.zero_add] at hsnoc
    rw [hfail, if_neg (fun hcon => SendOutcome.noConfusion hcon)] at hsnoc
    have hle := okCount_le o j 0
    exact (show ∀ X Y J : Nat, X = Y + 0 → Y ≤ J → J + 1 - X = (J - Y) + 1 by omega)
      (okCount o 0 (j + 1)) (okCount o 0 j) j hsnoc hle

theorem progress_event_per_attempt_witness :
    ([Event.started 1, Event.progress 1 0 1 "5511911111111" none 100,
        Event.finished 1 0 1] : List Event)[0 + 1]? =
      ((shuffleArray [(⟨"5511911111111", "a", ⟨none, none, none⟩⟩ : Contact)]
          (fun _ => 0))[0]?).map fun ct =>
        Event.progress (okCount (fun _ => SendOutcome.ok) 0 (0 + 1))
          ((0 + 1) - okCount (fun _ => SendOutcome.ok) 0 (0 + 1)) 1 ct.number
          (errOf ((fun _ => SendOutcome.ok) 0)) (jsRound100 (0 + 1) 1) :=
  (progress_event_per_attempt ⟨true, false, none⟩
    [⟨"5511911111111", "a", ⟨none, none, none⟩⟩] none none none (fun _ => .ok)
    (fun _ => 0) (fun _ => 0)
    ⟨⟨true, false, some ⟨[⟨"5511911111111", "a", ⟨none, none, none⟩⟩], none, none, 1, 0, 1⟩⟩,
     [Event.started 1, Event.progress 1 0 1 "5511911111111" none 100, Event.finished 1 0 1],
     0⟩ (by decide)).2.2.2.1 0 (by decide)

theorem sendMessage_blank (fsx : String → Bool) (ct : Contact) (m : Option String)
    (hblank : m = none ∨ jsTrim (m.getD "") = "") :
    sendMessage true fsx ct none none m = .ok [] := by
  unfold sendMessage
  rcases hblank with rfl | htrim
  · simp [jsTruthy]
  · simp [jsTruthy, htrim]

/-- C10: a contact attempt whose payload has no image path, no audio path,
and a message that is absent or only whitespace performs no dispatch call at
all (`sendMessage` returns `.ok []`) yet counts as a success: in a run whose
payload is such a blank message, every contact ends up in `sent`
(`sent = total`, `failed = 0`) and every campaign-progress event reports no
error. -/
theorem blank_message_counted_sent (fsx : String → Bool) (m : Option String)
    (hblank : m = none ∨ jsTrim (m.getD "") = "") :
    (∀ ct : Contact, sendMessage true fsx ct none none m = .ok []) ∧
    (∀ (st : EngineState) (contacts : List Contact) (imagePath audioPath : Option String)
      (d rand : Nat → Nat) (r : RunOutcome),
      startBulkSend st contacts imagePath audioPath m
        (fun i => outcomeOfSend (sendMessage true fsx
          ((shuffleArray contacts rand).getD i ⟨"", "", ⟨none, none, none⟩⟩) none none m))
        d rand .never = .ok r →
      r.state.currentCampaign =
        some ⟨contacts, imagePath, m, contacts.length, 0, contacts.length⟩ ∧
      (∀ a b t cur err pct, Event.progress a b t cur err pct ∈ r.events → err = none)) := by
  have hone : ∀ ct : Contact, sendMessage true fsx ct none none m = .ok [] :=
    fun ct => sendMessage_blank fsx ct m hblank
  refine ⟨hone, ?_⟩
  intro st contacts imagePath audioPath d rand r hok
  have hallok : ∀ j, (fun i => outcomeOfSend (sendMessage true fsx
      ((shuffleArray contacts rand).getD i ⟨"", "", ⟨none, none, none⟩⟩) none none m)) j =
      .ok := by
    intro j
    simp only []
    rw [hone _]
    rfl
  unfold startBulkSend at hok
  by_cases hc : st.isConnected = false
  · rw [if_pos hc] at hok; cases hok
  rw [if_neg hc] at hok
  by_cases hs : st.isSending = true
  · rw [if_pos hs] at hok; cases hok
  rw [if_neg hs] at hok
  simp only [] at hok
  cases hok
  have hlen : (shuffleArray contacts rand).length = contacts.length :=
    shuffleArray_length contacts rand
  have hstart : (0 : Nat) + (shuffleArray contacts rand).length = contacts.length := by
    omega
  rw [campaignLoop_never _ d contacts.length _ 0 _ rfl hstart]
  dsimp only
  constructor
  · rw [Option.some.injEq, Campaign.mk.injEq]
    refine ⟨rfl, rfl, rfl, ?_, ?_, rfl⟩
    · rw [okCount_all_ok _ hallok, hlen]
      exact Nat.zero_add _
    · rw [okCount_all_ok _ hallok]
      exact (show ∀ L : Nat, 0 + (L - L) = 0 by intro L; omega) _
  · intro a b t cur err pct hmem
    rcases List.mem_append.mp hmem with hmem1 | hmem2
    · rcases List.mem_append.mp hmem1 with hmem3 | hmem4
      · simp at hmem3
      · exact runEvents_error_none _ contacts.length hallok _ 0 0 0 a b t cur err pct hmem4
    · simp at hmem2

theorem blank_message_counted_sent_witness :
    sendMessage true (fun _ => true) ⟨"5511911111111", "a", ⟨none, none, none⟩⟩ none none
      (some "  ") = .ok [] ∧
    (RunOutcome.mk
        ⟨true, false, some ⟨[⟨"5511911111111", "a", ⟨none, none, none⟩⟩], none,
          some "  ", 1, 0, 1⟩⟩
        [Event.started 1, Event.progress 1 0 1 "5511911111111" none 100,
          Event.finished 1 0 1] 0).state.currentCampaign =
      some ⟨[⟨"5511911111111", "a", ⟨none, none, none⟩⟩], none, some "  ", 1, 0, 1⟩ :=
  ⟨(blank_message_counted_sent (fun _ => true) (some "  ") (Or.inr (by decide))).1
    ⟨"5511911111111", "a", ⟨none, none, none⟩⟩,
   ((blank_message_counted_sent (fun _ => true) (some "  ") (Or.inr (by decide))).2
     ⟨true, false, none⟩ [⟨"5511911111111", "a", ⟨none, none, none⟩⟩] none none
     (fun _ => 0) (fun _ => 0)
     ⟨⟨true, false, some ⟨[⟨"5511911111111", "a", ⟨none, none, none⟩⟩], none,
        some "  ", 1, 0, 1⟩⟩,
      [Event.started 1, Event.progress 1 0 1 "5511911111111" none 100,
        Event.finished 1 0 1], 0⟩ (by decide)).1⟩

/-- C6 (amended): after the address-exists check succeeds, the dispatch calls
of `sendMessage` are determined by independent `if`s, not by mutually
exclusive cases.  When exactly one attachment is usable — an image path set
and existing while no usable audio is present, or an audio path set and
existing while no image path is truthy — exactly one matching dispatch is
performed (image with caption = message text; audio as a voice note with no
caption), and when neither path is truthy and the message is non-blank,
exactly one plain-text send is performed.  (The attachment kinds are NOT
mutually exclusive in the code: with both an image and an audio present two
dispatch calls are performed — see the counterexample — and with no
attachment and a blank message no dispatch happens at all.)  A failing
address check throws the wrapped "not registered" error. -/
theorem sendMessage_dispatch (fsx : String → Bool) (ct : Contact)
    (imagePath audioPath message : Option String) :
    (sendMessage false fsx ct imagePath audioPath message =
      .error "Falha no envio: Número não existe no WhatsApp") ∧
    (jsTruthy imagePath = true → fsx (imagePath.getD "") = true →
      ¬ (jsTruthy audioPath = true ∧ fsx (audioPath.getD "") = true) →
      sendMessage true fsx ct imagePath audioPath message =
        .ok [.image (ct.number ++ "@s.whatsapp.net") message
          (mimetypeFor (imagePath.getD ""))]) ∧
    (jsTruthy imagePath = false → jsTruthy audioPath = true →
      fsx (audioPath.getD "") = true →
      sendMessage true fsx ct imagePath audioPath message =
        .ok [.audioNote (ct.number ++ "@s.whatsapp.net") "audio/mp4" true]) ∧
    (jsTruthy imagePath = false → jsTruthy audioPath = false →
      jsTruthy message = true → jsTrim (message.getD "") ≠ "" →
      sendMessage true fsx ct imagePath audioPath message =
        .ok [.text (ct.number ++ "@s.whatsapp.net") (message.getD "")]) := by
  refine ⟨?_, ?_, ?_, ?_⟩
  · unfold sendMessage
    rw [if_pos rfl]
  · intro h1 h2 hno
    unfold sendMessage
    rw [if_neg (by simp)]
    rw [if_pos ⟨h1, h2⟩, if_neg hno,
      if_neg (fun hcon => by rw [h1] at hcon; exact absurd hcon.1 (by simp))]
    rfl
  · intro h1 h2 h3
    unfold sendMessage
    rw [if_neg (by simp)]
    rw [if_neg (fun hcon => by rw [h1] at hcon; exact absurd hcon.1 (by simp)),
      if_pos ⟨h2, h3⟩,
      if_neg (fun hcon => by
        obtain ⟨-, hmid, -⟩ := hcon
        rw [h2] at hmid
        exact absurd hmid (by simp))]
    rfl
  · intro h1 h2 h3 h4
    unfold sendMessage
    rw [if_neg (by simp)]
    rw [if_neg (fun hcon => by rw [h1] at hcon; exact absurd hcon.1 (by simp)),
      if_neg (fun hcon => by rw [h2] at hcon; exact absurd hcon.1 (by simp)),
      if_pos ⟨h1, h2, h3, h4⟩]
    rfl

theorem sendMessage_dispatch_witness :
    sendMessage true (fun _ => true) ⟨"5511911111111", "a", ⟨none, none, none⟩⟩
        (some "a.png") none (some "hi") =
      .ok [.image ("5511911111111" ++ "@s.whatsapp.net") (some "hi")
        (mimetypeFor ((some "a.png").getD ""))] :=
  (sendMessage_dispatch (fun _ => true) ⟨"5511911111111", "a", ⟨none, none, none⟩⟩
    (some "a.png") none (some "hi")).2.1 (by decide) (by decide) (by decide)

/-- C6 counterexample: with both an image and an audio attachment present
(and both files existing), `sendMessage` performs TWO dispatch calls, not
exactly one: the attachment kinds are not mutually exclusive in the code. -/
theorem sendMessage_two_dispatches_counterexample :
    (sendMessage true (fun _ => true) ⟨"5511911111111", "a", ⟨none, none, none⟩⟩
        (some "a.png") (some "b.mp3") (some "hi")).toOption.map List.length = some 2 ∧
      (2 : Nat) ≠ 1 := by decide

theorem cons_set_perm (a y : α) : ∀ (t : List α) (j : Nat), t.get? j = some y →
    (y :: t.set j a).Perm (a :: t) := by
  intro t
  induction t with
  | nil => intro j h; cases j <;> cases h
  | cons b t' ih =>
    intro j h
    cases j with
    | zero =>
      cases h
      exact List.Perm.swap _ _ _
    | succ j' =>
      have h' : t'.get? j' = some y := h
      show (y :: b :: t'.set j' a).Perm (a :: b :: t')
      exact (List.Perm.swap b y (t'.set j' a)).trans
        ((List.Perm.cons b (ih j' h')).trans (List.Perm.swap a b t'))

theorem listSwap_perm (l : List α) : ∀ i j, (listSwap l i j).Perm l := by
  induction l with
  | nil => intro i j; unfold listSwap; cases i <;> exact List.Perm.refl _
  | cons a t ih =>
    intro i j
    unfold listSwap
    cases i with
    | zero =>
      cases j with
      | zero => exact List.Perm.refl _
      | succ j' =>
        cases hy : t.get? j' with
        | none =>
          simp only [List.get?_cons_zero, List.get?_cons_succ, hy]
          exact List.Perm.refl _
        | some y =>
          simp only [List.get?_cons_zero, List.get?_cons_succ, hy]
          exact cons_set_perm a y t j' hy
    | succ i' =>
      cases j with
      | zero =>
        cases hx : t.get? i' with
        | none =>
          simp only [List.get?_cons_zero, List.get?_cons_succ, hx]
          exact List.Perm.refl _
        | some x =>
          simp only [List.get?_cons_zero, List.get?_cons_succ, hx]
          exact cons_set_perm a x t i' hx
      | succ j' =>
        cases hx : t.get? i' with
        | none =>
          simp only [List.get?_cons_succ, hx]
          cases t.get? j' <;> exact List.Perm.refl _
        | some x =>
          cases hy : t.get? j' with
          | none =>
            simp only [List.get?_cons_succ, hx, hy]
            exact List.Perm.refl _
          | some y =>
            simp only [List.get?_cons_succ, hx, hy]
            have := ih i' j'
            unfold listSwap at this
            rw [hx, hy] at this
            exact List.Perm.cons a this

theorem fyAux_perm (rand : Nat → Nat) : ∀ (k : Nat) (l : List α),
    (fyAux rand k l).Perm l := by
  intro k
  induction k with
  | zero => intro l; exact List.Perm.refl l
  | succ m ih =>
    intro l
    unfold fyAux
    exact (ih _).trans (listSwap_perm l (m + 1) (rand (m + 1)))

theorem shuffleArray_perm (l : List α) (rand : Nat → Nat) :
    (shuffleArray l rand).Perm l :=
  fyAux_perm rand (l.length - 1) l

theorem fyAux_eq_applySwaps (rand : Nat → Nat) : ∀ (k : Nat) (l : List α),
    fyAux rand k l = applySwaps l k (descSeq rand k) := by
  intro k
  induction k with
  | zero => intro l; rfl
  | succ m ih =>
    intro l
    unfold fyAux descSeq applySwaps
    exact ih _

theorem shuffleArray_eq_applySwaps (l : List α) (rand : Nat → Nat) :
    shuffleArray l rand = applySwaps l (l.length - 1) (descSeq rand (l.length - 1)) :=
  fyAux_eq_applySwaps rand (l.length - 1) l

theorem validSeq_mem_allChoiceSeqs : ∀ (k : Nat) (c : List Nat),
    validSeq k c = true ↔ c ∈ allChoiceSeqs k := by
  intro k
  induction k with
  | zero =>
    intro c
    cases c with
    | nil => simp [validSeq, allChoiceSeqs]
    | cons j c' => simp [validSeq, allChoiceSeqs]
  | succ m ih =>
    intro c
    cases c with
    | nil => simp [validSeq, allChoiceSeqs]
    | cons j c' =>
      unfold validSeq allChoiceSeqs
      rw [List.mem_flatMap]
      constructor
      · intro h
        rw [Bool.and_eq_true] at h
        obtain ⟨hj, hc⟩ := h
        have hj' : j ≤ m + 1 := of_decide_eq_true hj
        refine ⟨j, List.mem_range.mpr (by omega), List.mem_map.mpr ⟨c', (ih c').mp hc, rfl⟩⟩
      · rintro ⟨j2, hj2, hmem⟩
        obtain ⟨c2, hc2, heq⟩ := List.mem_map.mp hmem
        cases heq
        rw [Bool.and_eq_true]
        refine ⟨?_, (ih c').mpr hc2⟩
        have hlt := List.mem_range.mp hj2
        exact decide_eq_true (by omega)

theorem descSeq_mem_allChoiceSeqs (rand : Nat → Nat) (hr : ∀ i, rand i ≤ i) :
    ∀ k : Nat, descSeq rand k ∈ allChoiceSeqs k := by
  intro k
  rw [← validSeq_mem_allChoiceSeqs]
  induction k with
  | zero => rfl
  | succ m ih =>
    unfold descSeq validSeq
    rw [Bool.and_eq_true]
    exact ⟨decide_eq_true (hr (m + 1)), ih⟩

theorem allChoiceSeqs_length : ∀ k : Nat, (allChoiceSeqs k).length = Nat.factorial (k + 1) := by
  intro k
  induction k with
  | zero => rfl
  | succ m ih =>
    unfold allChoiceSeqs
    rw [List.length_flatMap]
    have hmap : ∀ j ∈ List.range (m + 2),
        (List.length ∘ fun j => (allChoiceSeqs m).map (fun c => j :: c)) j =
          Nat.factorial (m + 1) := by
      intro j hj
      simp only [Function.comp, List.length_map]
      exact ih
    rw [List.map_congr_left hmap, List.map_const', List.sum_replicate, List.length_range,
      smul_eq_mul]
    rfl

theorem set_oob (l : List α) (n : Nat) (a : α) (h : l.length ≤ n) : l.set n a = l := by
  induction l generalizing n with
  | nil => rfl
  | cons b t ih =>
    cases n with
    | zero => simp at h
    | succ m =>
      simp only [List.length_cons] at h
      simp only [List.set_cons_succ]
      rw [ih m (by omega)]

theorem listSwap_append (xs ys : List α) (i j : Nat) (hi : i < xs.length)
    (hj : j < xs.length) : listSwap (xs ++ ys) i j = listSwap xs i j ++ ys := by
  obtain ⟨x, hx⟩ : ∃ x, xs.get? i = some x := by
    rw [List.get?_eq_getElem?]
    exact ⟨xs[i], List.getElem?_eq_getElem hi⟩
  obtain ⟨y, hy⟩ : ∃ y, xs.get? j = some y := by
    rw [List.get?_eq_getElem?]
    exact ⟨xs[j], List.getElem?_eq_getElem hj⟩
  unfold listSwap
  rw [List.get?_append hi, List.get?_append hj, hx, hy]
  dsimp only
  rw [List.set_append_left i y hi]
  rw [List.set_append_left j x (by rw [List.length_set]; exact hj)]

theorem applySwaps_append : ∀ (k : Nat) (c : List Nat) (xs ys : List α),
    validSeq k c = true → k + 1 ≤ xs.length →
    applySwaps (xs ++ ys) k c = applySwaps xs k c ++ ys := by
  intro k
  induction k with
  | zero =>
    intro c xs ys hv hlen
    cases c with
    | nil => rfl
    | cons j c' => simp [validSeq] at hv
  | succ m ih =>
    intro c xs ys hv hlen
    cases c with
    | nil => simp [validSeq] at hv
    | cons j c' =>
      unfold validSeq at hv
      rw [Bool.and_eq_true] at hv
      obtain ⟨hj, hc⟩ := hv
      have hj' : j ≤ m + 1 := of_decide_eq_true hj
      unfold applySwaps
      rw [listSwap_append xs ys (m + 1) j (by omega) (by omega)]
      rw [ih c' _ ys hc (by rw [listSwap_length]; omega)]

theorem getD_concat_swap (t : List α) (z : α) (j : Nat) (hj : j ≤ t.length) :
    listSwap (t ++ [z]) t.length j = (t.set j z) ++ [t.getD j z] := by
  have h1 : (t ++ [z]).get? t.length = some z := by
    rw [List.get?_eq_getElem?, List.getElem?_append_right (le_refl _)]
    simp
  have h5 : (t ++ [z]).set t.length z = t ++ [z] := by
    rw [List.set_append_right _ _ (le_refl _), Nat.sub_self]
    rfl
  rcases Nat.eq_or_lt_of_le hj with heq | hlt
  · subst heq
    unfold listSwap
    rw [h1]
    dsimp only
    rw [h5, h5, set_oob t t.length z (le_refl _), List.getD_eq_default _ _ (le_refl _)]
  · obtain ⟨xj, hxj⟩ : ∃ x, t.get? j = some x := by
      rw [List.get?_eq_getElem?]
      exact ⟨t[j], List.getElem?_eq_getElem hlt⟩
    unfold listSwap
    have h2 : (t ++ [z]).get? j = some xj := by
      rw [List.get?_eq_getElem?, List.getElem?_append_left hlt]
      rw [List.get?_eq_getElem?] at hxj
      exact hxj
    rw [h1, h2]
    dsimp only
    have h3 : (t ++ [z]).set t.length xj = t ++ [xj] := by
      rw [List.set_append_right _ _ (le_refl _), Nat.sub_self]
      rfl
    rw [h3, List.set_append_left j z hlt]
    have h4 : t.getD j z = xj := by
      rw [List.get?_eq_getElem?] at hxj
      rw [List.getD_eq_getElem?_getD, hxj]
      rfl
    rw [h4]

theorem countP_flatMap (f : β → List γ) (p : γ → Bool) :
    ∀ l : List β, (l.flatMap f).countP p = (l.map fun a => (f a).countP p).sum := by
  intro l
  induction l with
  | nil => rfl
  | cons a l ih =>
    rw [List.flatMap_cons, List.countP_append, List.map_cons, List.sum_cons, ih]

theorem set_nodup (z : α) : ∀ (t : List α) (j : Nat), t.Nodup → z ∉ t → (t.set j z).Nodup := by
  intro t
  induction t with
  | nil =>
    intro j _ _
    cases j <;> simp
  | cons a t ih =>
    intro j hnd hz
    rw [List.nodup_cons] at hnd
    obtain ⟨ha, hnd2⟩ := hnd
    have hz2 : z ∉ t := fun h => hz (List.mem_cons_of_mem a h)
    have hza : z ≠ a := fun h => hz (h ▸ List.mem_cons_self a t)
    cases j with
    | zero =>
      rw [List.set_cons_zero, List.nodup_cons]
      exact ⟨hz2, hnd2⟩
    | succ j2 =>
      rw [List.set_cons_succ, List.nodup_cons]
      refine ⟨fun hmem => ?_, ih j2 hnd2 hz2⟩
      rcases List.mem_or_eq_of_mem_set hmem with h | h
      · exact ha h
      · exact hza h.symm

theorem sum_indicator_range : ∀ (n j₀ : Nat) (h : Nat → Nat), j₀ < n →
    (∀ j, j < n → h j = if j = j₀ then 1 else 0) → ((List.range n).map h).sum = 1 := by
  intro n
  induction n with
  | zero =>
    intro j₀ h hj _
    omega
  | succ n ih =>
    intro j₀ h hj hchar
    rw [List.range_succ, List.map_append, List.sum_append, List.map_cons, List.map_nil,
      List.sum_cons, List.sum_nil]
    rcases Nat.lt_succ_iff_lt_or_eq.mp hj with hlt | heq
    · have h1 : ((List.range n).map h).sum = 1 := ih j₀ h hlt fun j hjn => hchar j (by omega)
      have h2 : h n = 0 := by
        rw [hchar n (by omega), if_neg (by omega)]
      rw [h1, h2]
      omega

    · subst heq
      have h2 : h j₀ = 1 := by
        rw [hchar j₀ (by omega), if_pos rfl]
      have h1 : ((List.range j₀).map h).sum = 0 := by
        have hzero : ∀ j ∈ List.range j₀, h j = 0 := by
          intro j hjm
          have hjn := List.mem_range.mp hjm
          rw [hchar j (by omega), if_neg (by omega)]
        rw [List.map_congr_left hzero, List.map_const', List.sum_replicate, smul_eq_mul,
          Nat.mul_zero]
      rw [h1, h2]
      omega

theorem getD_concat_getElem (t : List α) (z : α) (j : Nat) (hj : j ≤ t.length) :
    (t ++ [z])[j]? = some (t.getD j z) := by
  rcases Nat.eq_or_lt_of_le hj with heq | hlt
  · subst heq
    rw [List.getElem?_append_right (le_refl _), Nat.sub_self,
      List.getD_eq_default _ _ (le_refl _)]
    rfl
  · rw [List.getElem?_append_left hlt, List.getElem?_eq_getElem hlt,
      List.getD_eq_getElem?_getD, List.getElem?_eq_getElem hlt]
    rfl

theorem applySwaps_count {α : Type} [DecidableEq α] :
    ∀ (k : Nat) (l p : List α), l.Nodup → l.length = k + 1 → List.Perm p l →
    ((allChoiceSeqs k).countP fun c => decide (applySwaps l k c = p)) = 1 := by
  intro k
  induction k with
  | zero =>
    intro l p hnd hlen hperm
    obtain ⟨a, rfl⟩ : ∃ a, l = [a] := by
      cases l with
      | nil => simp at hlen
      | cons a t =>
        cases t with
        | nil => exact ⟨a, rfl⟩
        | cons b t2 =>
          simp only [List.length_cons] at hlen
          omega
    have hp : p = [a] := List.perm_singleton.mp hperm
    subst hp
    simp [allChoiceSeqs, applySwaps]
  | succ m ih =>
    intro l p hnd hlen hperm
    have hlnil : l ≠ [] := by
      intro h
      rw [h] at hlen
      simp at hlen
    obtain ⟨t, z, rfl⟩ : ∃ t z, l = t ++ [z] :=
      ⟨l.dropLast, l.getLast hlnil, (List.dropLast_append_getLast hlnil).symm⟩
    have htlen : t.length = m + 1 := by
      rw [List.length_append] at hlen
      simp at hlen
      omega
    have hpnil : p ≠ [] := by
      intro h
      rw [h] at hperm
      have hl := hperm.length_eq
      simp at hl
    obtain ⟨q, y, rfl⟩ : ∃ q y, p = q ++ [y] :=
      ⟨p.dropLast, p.getLast hpnil, (List.dropLast_append_getLast hpnil).symm⟩
    obtain ⟨htnd, -, hdisj⟩ := List.nodup_append.mp hnd
    have hz : z ∉ t := fun hmem => hdisj hmem (List.mem_singleton_self z)
    have hy_mem : y ∈ t ++ [z] := hperm.subset (by simp)
    obtain ⟨j₀, hj₀lt, hj₀⟩ := List.getElem_of_mem hy_mem
    have hj₀lt2 : j₀ < m + 2 := by
      rw [List.length_append] at hj₀lt
      simp at hj₀lt
      omega
    have hiff : ∀ j : Nat, j < m + 2 → (t.getD j z = y ↔ j = j₀) := by
      intro j hjlt
      have hj : j ≤ t.length := by omega
      constructor
      · intro heq
        have hjlen : j < (t ++ [z]).length := by
          rw [List.length_append]
          simp
          omega
        have h1 : (t ++ [z])[j]? = some y := by
          rw [getD_concat_getElem t z j hj, heq]
        rw [List.getElem?_eq_getElem hjlen] at h1
        have h2 : (t ++ [z])[j] = y := Option.some.inj h1
        exact (List.Nodup.getElem_inj_iff hnd).mp (h2.trans hj₀.symm)
      · intro heq
        subst heq
        have h1 : (t ++ [z])[j]? = some (t.getD j z) := getD_concat_getElem t z j hj
        rw [List.getElem?_eq_getElem hj₀lt, hj₀] at h1
        exact (Option.some.inj h1).symm
    have hchar : ∀ j : Nat, j < m + 2 →
        (((allChoiceSeqs m).map fun c => j :: c).countP fun c =>
            decide (applySwaps (t ++ [z]) (m + 1) c = q ++ [y])) =
          if j = j₀ then 1 else 0 := by
      intro j hjlt
      have hkey : ∀ c₂ ∈ allChoiceSeqs m,
          applySwaps (t ++ [z]) (m + 1) (j :: c₂) =
            applySwaps (t.set j z) m c₂ ++ [t.getD j z] := by
        intro c₂ hc₂
        have hvalid : validSeq m c₂ = true := (validSeq_mem_allChoiceSeqs m c₂).mpr hc₂
        have hswap : listSwap (t ++ [z]) (m + 1) j = t.set j z ++ [t.getD j z] := by
          have h := getD_concat_swap t z j (by omega)
          rw [htlen] at h
          exact h
        have hstep : applySwaps (t ++ [z]) (m + 1) (j :: c₂) =
            applySwaps (listSwap (t ++ [z]) (m + 1) j) m c₂ := rfl
        rw [hstep, hswap]
        exact applySwaps_append m c₂ (t.set j z) [t.getD j z] hvalid
          (by rw [List.length_set]; omega)
      rw [List.countP_map]
      rcases Decidable.eq_or_ne j j₀ with heq | hne
      · cases heq
        rw [if_pos rfl]
        have hyj : t.getD j₀ z = y := (hiff j₀ hjlt).mpr rfl
        have hswap2 : listSwap (t ++ [z]) (m + 1) j₀ = t.set j₀ z ++ [t.getD j₀ z] := by
          have h := getD_concat_swap t z j₀ (by omega)
          rw [htlen] at h
          exact h
        have hperm2 : List.Perm (t.set j₀ z ++ [y]) (t ++ [z]) := by
          rw [← hyj, ← hswap2]
          exact listSwap_perm (t ++ [z]) (m + 1) j₀
        have hqperm : List.Perm q (t.set j₀ z) :=
          (List.perm_append_right_iff [y]).mp (hperm.trans hperm2.symm)
        refine Eq.trans (List.countP_congr fun c₂ hc₂ => ?_)
          (ih (t.set j₀ z) q (set_nodup z t j₀ htnd hz) (by rw [List.length_set]; omega) hqperm)
        show (decide (applySwaps (t ++ [z]) (m + 1) (j₀ :: c₂) = q ++ [y]) = true) ↔
          (decide (applySwaps (t.set j₀ z) m c₂ = q) = true)
        rw [decide_eq_true_eq, decide_eq_true_eq, hkey c₂ hc₂, hyj]
        exact ⟨fun h => (List.append_inj' h rfl).1, fun h => by rw [h]⟩
      · rw [if_neg hne, List.countP_eq_zero]
        intro c₂ hc₂ hdec
        have hdec2 : decide (applySwaps (t ++ [z]) (m + 1) (j :: c₂) = q ++ [y]) = true := hdec
        have heq2 := of_decide_eq_true hdec2
        rw [hkey c₂ hc₂] at heq2
        have h2 : [t.getD j z] = [y] := (List.append_inj' heq2 rfl).2
        have h3 : t.getD j z = y := by injection h2
        exact hne ((hiff j hjlt).mp h3)
    unfold allChoiceSeqs
    rw [countP_flatMap]
    exact sum_indicator_range (m + 2) j₀ _ hj₀lt2 hchar

/-- **C8**: `shuffleArray` always returns a permutation of its input (same
multiset of elements), and the engine never mutates the contact list it was
given: the shuffle operates on the copy `[...array]` and the campaign stored
by `startBulkSend` still holds the original `contacts`.  Moreover the shuffle
is an exact Fisher-Yates: it equals the explicit swap sequence drawn from the
random oracle, the valid choice sequences for a list of length `k + 1` are
exactly the `(k+1)!` equiprobable draws of `Math.floor(Math.random()*(i+1))`,
and every permutation of a duplicate-free input is produced by exactly one
choice sequence — so uniform independent choices make every permutation
equally likely. -/
theorem shuffleArray_uniform {α : Type} [DecidableEq α] :
    (∀ (l : List α) (rand : Nat → Nat), (shuffleArray l rand).Perm l) ∧
    (∀ (st : EngineState) (contacts : List Contact) (ip ap msg : Option String)
        (o : Nat → SendOutcome) (d rand : Nat → Nat) (stop : StopSpec)
        (r : RunOutcome),
      startBulkSend st contacts ip ap msg o d rand stop = Except.ok r →
      Option.map Campaign.contacts r.state.currentCampaign = some contacts) ∧
    (∀ (l : List α) (rand : Nat → Nat),
      shuffleArray l rand = applySwaps l (l.length - 1) (descSeq rand (l.length - 1))) ∧
    (∀ rand : Nat → Nat, (∀ i, rand i ≤ i) → ∀ k, descSeq rand k ∈ allChoiceSeqs k) ∧
    (∀ k : Nat, (allChoiceSeqs k).length = Nat.factorial (k + 1)) ∧
    (∀ (k : Nat) (l p : List α), l.Nodup → l.length = k + 1 → List.Perm p l →
      ((allChoiceSeqs k).countP fun c => decide (applySwaps l k c = p)) = 1) := by
  refine ⟨shuffleArray_perm, ?_, shuffleArray_eq_applySwaps, descSeq_mem_allChoiceSeqs,
    allChoiceSeqs_length, applySwaps_count⟩
  intro st contacts ip ap msg o d rand stop r h
  unfold startBulkSend at h
  by_cases h1 : st.isConnected = false
  · rw [if_pos h1] at h
    exact Except.noConfusion h
  · rw [if_neg h1] at h
    by_cases h2 : st.isSending = true
    · rw [if_pos h2] at h
      exact Except.noConfusion h
    · rw [if_neg h2] at h
      injection h with h3
      rw [← h3]
      rfl

theorem shuffleArray_uniform_witness :
    (shuffleArray [0, 1, 2] (fun _ => 0)).Perm [0, 1, 2] ∧
    ((allChoiceSeqs 2).countP fun c => decide (applySwaps [0, 1, 2] 2 c = [2, 0, 1])) = 1 :=
  ⟨(@shuffleArray_uniform Nat _).1 [0, 1, 2] (fun _ => 0),
   (@shuffleArray_uniform Nat _).2.2.2.2.2 2 [0, 1, 2] [2, 0, 1]
     (by decide) (by decide) (by decide)⟩
